import Mathlib

/-!
# FlexPolyline codec (golang/flexpolyline): embedding and verification

A shallow embedding of `data.go`, `encode.go` and `decode.go`.

* A Go `string` is a sequence of bytes: `List Byte` with `Byte = Fin 256`
  (arithmetic on `Fin 256` wraps like Go's `uint8`).
* `int64` values are `Int`s kept in `[-2^63, 2^63)`; `uint64` values are `Nat`s
  kept below `2^64`.  Conversions and wrap-around are explicit
  (`toU64`, `toI64`).
* A Go call either returns normally, returns a non-nil `error`, or panics at
  run time (index out of range, `panic(err)`): this is the type `Outcome`.
* `float64` arithmetic is not interpreted: the embedding is parametric in the
  floating point primitives the code calls (`FloatOps`).
-/

namespace FlexPolyline

/-! ## Results of a Go call -/

/-- The `error` values the package builds with `fmt.Errorf`. -/
inductive Err where
  /-- The message "invalid encoding" of `decodeChar`. -/
  | invalidEncoding
  /-- The message "Invalid format version %d, can only handle %d" of `decodeHeader`. -/
  | invalidVersion (version : Int)
  /-- The message "Precision2D %d > max Precision2D (15)" of `checkArgs`. -/
  | precision2DTooBig (precision2D : Nat)
  /-- The message "Type3D %d > max Type3D (7)" of `checkArgs`. -/
  | type3DTooBig (type3D : Nat)
  /-- The message "Type3D %d reserved for future use" of `checkArgs`. -/
  | type3DReserved (type3D : Nat)
  /-- The message "Precision3D %d > max Precision3D (15)" of `checkArgs`. -/
  | precision3DTooBig (precision3D : Nat)
  /-- The message "received nil header" of `GetThirdDimension`. -/
  | nilHeader
  deriving DecidableEq, Repr

/-- How a Go call ends: a normal return, a returned non-nil `error`, a run-time
panic, or (for the loops modelled with a step budget) an exhausted budget. -/
inductive Outcome (α : Type) where
  /-- Normal return (the `error` result, if any, is `nil`). -/
  | ok (a : α)
  /-- Return with a non-nil `error`. -/
  | error (e : Err)
  /-- Run-time panic: index out of range, or an explicit `panic(err)`. -/
  | abort
  /-- The step budget of a modelled loop ran out before the loop ended. -/
  | outOfFuel
  deriving DecidableEq, Repr

/-- Sequencing of Go calls: go on with the returned value after a normal
return, otherwise hand the error, the panic or the exhausted budget on (the
pattern `if err != nil { return ..., err }`). -/
def Outcome.andThen {α β : Type} (x : Outcome α) (f : α → Outcome β) : Outcome β :=
  match x with
  | .ok a => f a
  | .error e => .error e
  | .abort => .abort
  | .outOfFuel => .outOfFuel

/-! ## Machine integers -/

/-- A byte of a Go string; `Fin 256` arithmetic wraps like `uint8`. -/
abbrev Byte := Fin 256

/-- The conversion `uint64(x)` of an `int64`: the two's complement bit pattern. -/
def toU64 (x : Int) : Nat := (x % 2 ^ 64).toNat

/-- The conversion `int64(n)` of a `uint64` bit pattern: the signed value. -/
def toI64 (n : Nat) : Int :=
  if n % 2 ^ 64 < 2 ^ 63 then ((n % 2 ^ 64 : Nat) : Int) else ((n % 2 ^ 64 : Nat) : Int) - 2 ^ 64

/-- The `int64` result of an integer computation: wrap-around into `[-2^63, 2^63)`. -/
def wrapI64 (x : Int) : Int := toI64 (toU64 x)

/-- The operator `a - b` on `int64`. -/
def sub64 (a b : Int) : Int := wrapI64 (a - b)

/-- The operator `a | b` on `int64`: bitwise or of the bit patterns. -/
def or64 (a b : Int) : Int := toI64 (toU64 a ||| toU64 b)

/-- The operator `a & b` on `int64`: bitwise and of the bit patterns. -/
def and64 (a b : Int) : Int := toI64 (toU64 a &&& toU64 b)

/-- The operator `a << s` on `int64` with an unsigned shift count: the bits
shifted out are lost, a count of 64 or more gives 0. -/
def shl64 (a : Int) (s : Nat) : Int := toI64 ((toU64 a <<< s) % 2 ^ 64)

/-- The operator `^u` on `uint64`: bitwise complement. -/
def notU64 (u : Nat) : Nat := 2 ^ 64 - 1 - u % 2 ^ 64

/-- The operator `^x` on `int64`: bitwise complement. -/
def not64 (x : Int) : Int := toI64 (notU64 (toU64 x))

/-- The operator `x >> s` on `int64`: arithmetic (sign-extending) shift. -/
def sar64 (x : Int) (s : Nat) : Int := x >>> s

/-! ## data.go -/

/-- The constant `FormatVersion`. -/
def FormatVersion : Nat := 1

/-- The type `Precision`, a `uint8`. -/
abbrev Precision := Fin 256

/-- The type `Type3D`, a `uint8`. -/
abbrev Type3D := Fin 256

/-- The constant `Absent` of `Type3D`. -/
def Absent : Type3D := 0
/-- The constant `Level` of `Type3D`. -/
def Level : Type3D := 1
/-- The constant `Altitude` of `Type3D`. -/
def Altitude : Type3D := 2
/-- The constant `Elevation` of `Type3D`. -/
def Elevation : Type3D := 3
/-- The constant `Reserved1` of `Type3D`. -/
def Reserved1 : Type3D := 4
/-- The constant `Reserved2` of `Type3D`. -/
def Reserved2 : Type3D := 5
/-- The constant `Custom1` of `Type3D`. -/
def Custom1 : Type3D := 6
/-- The constant `Custom2` of `Type3D`. -/
def Custom2 : Type3D := 7

/-- The floating point primitives used by the codec, over a carrier `F` for
`float64`.  Nothing is assumed about them. -/
structure FloatOps (F : Type) where
  /-- The zero value of a `float64` variable. -/
  zero : F
  /-- The function `math.Pow10(int(p))`, i.e. `Precision(p).factor()`. -/
  pow10 : Nat → F
  /-- The operator `x * y`. -/
  mul : F → F → F
  /-- The operator `x / y`. -/
  div : F → F → F
  /-- The operator `x + y`. -/
  add : F → F → F
  /-- The function `math.Round`. -/
  round : F → F
  /-- The conversion `int64(x)`. -/
  toInt64 : F → Int
  /-- The conversion `float64(v)` of an `int64`. -/
  ofInt64 : Int → F

/-- The struct `Point`. -/
structure Point (F : Type) where
  Lat : F
  Lng : F
  ThirdDim : F
  deriving DecidableEq, Repr

/-- The struct `Polyline`. -/
structure Polyline (F : Type) where
  coordinates : List (Point F)
  precision2D : Precision
  precision3D : Precision
  type3D : Type3D
  deriving DecidableEq, Repr

/-- The function `checkArgs`; `none` is the `nil` error. -/
def checkArgs (type3D : Type3D) (precision2D precision3D : Precision) : Option Err :=
  if precision2D > 15 then some (.precision2DTooBig precision2D.val)
  else if type3D > Custom2 then some (.type3DTooBig type3D.val)
  else if type3D = Reserved1 ∨ type3D = Reserved2 then some (.type3DReserved type3D.val)
  else if precision3D > 15 then some (.precision3DTooBig precision3D.val)
  else none

/-- The function `CreatePolyline`. -/
def CreatePolyline {F : Type} (precision : Precision) (points : List (Point F)) : Outcome (Polyline F) :=
  match checkArgs Absent precision 0 with
  | some err => .error err
  | none => .ok { coordinates := points, precision2D := precision, precision3D := 0, type3D := Absent }

/-- The function `MustCreatePolyline`: panics if the arguments are bad. -/
def MustCreatePolyline {F : Type} (precision : Precision) (points : List (Point F)) : Outcome (Polyline F) :=
  match CreatePolyline precision points with
  | .ok p => .ok p
  | _ => .abort

/-- The function `CreatePolyline3D`. -/
def CreatePolyline3D {F : Type} (type3D : Type3D) (precision2D precision3D : Precision)
    (points : List (Point F)) :
    Outcome (Polyline F) :=
  match checkArgs type3D precision2D precision3D with
  | some err => .error err
  | none => .ok { coordinates := points, precision2D := precision2D,
                  precision3D := precision3D, type3D := type3D }

/-- The function `MustCreatePolyline3D`: panics if the arguments are bad. -/
def MustCreatePolyline3D {F : Type} (type3D : Type3D) (precision2D precision3D : Precision)
    (points : List (Point F)) :
    Outcome (Polyline F) :=
  match CreatePolyline3D type3D precision2D precision3D points with
  | .ok p => .ok p
  | _ => .abort

/-! ## encode.go -/

/-- The byte of an ASCII character. -/
def byteOfChar (c : Char) : Byte := Fin.ofNat c.toNat

/-- The bytes of a string literal of ASCII characters. -/
def bytes (s : String) : List Byte := s.toList.map byteOfChar

/-- The constant `encodingTable`. -/
def encodingTable : List Byte :=
  bytes "ABCDEFGHIJKLMNOPQRSTUVWXYZabcdefghijklmnopqrstuvwxyz0123456789-_"

/-- The effect `builder.WriteString(string(encodingTable[pos]))`; an index out
of range panics. -/
def writeSymbol (pos : Nat) (builder : List Byte) : Outcome (List Byte) :=
  match encodingTable[pos]? with
  | some c => .ok (builder ++ [c])
  | none => .abort

/-- The loop of `encodeUint` with a step budget. -/
def encodeUintLoop : Nat → Nat → List Byte → Outcome (List Byte)
  | 0, _, _ => .outOfFuel
  | fuel + 1, value, builder =>
    if value > 0x1F then
      let pos := (value &&& 0x1F) ||| 0x20
      (writeSymbol pos builder).andThen fun builder =>
        encodeUintLoop fuel (value >>> 5) builder
    else
      writeSymbol value builder

/-- The function `encodeUint`.  A `uint64` has at most 13 chunks of 5 bits, so
the loop body runs at most 12 times before the last symbol is written. -/
def encodeUint (value : Nat) (builder : List Byte) : Outcome (List Byte) :=
  encodeUintLoop 13 value builder

/-- The local variable `uintValue` of `encodeScaledValue` at the call of
`encodeUint`: `uint64(value) << 1`, complemented when `value < 0`. -/
def zigzagBits (value : Int) : Nat :=
  let uintValue := toU64 value
  let uintValue := (uintValue <<< 1) % 2 ^ 64
  if value < 0 then notU64 uintValue else uintValue

/-- The function `encodeScaledValue`. -/
def encodeScaledValue (value : Int) (builder : List Byte) : Outcome (List Byte) :=
  encodeUint (zigzagBits value) builder

/-- The function `encodeHeader`. -/
def encodeHeader {F : Type} (polyline : Polyline F) (builder : List Byte) : Outcome (List Byte) :=
  let headerContent :=
    (polyline.precision3D.val <<< 7) ||| (polyline.type3D.val <<< 4) ||| polyline.precision2D.val
  (encodeUint FormatVersion builder).andThen fun builder =>
    encodeUint headerContent builder

/-- The scaled integer of a coordinate: `int64(math.Round(x * multiplier))`.
Whatever the conversion yields is an `int64`. -/
def scaled {F : Type} (ops : FloatOps F) (x multiplier : F) : Int :=
  wrapI64 (ops.toInt64 (ops.round (ops.mul x multiplier)))

/-- The point loop of `Encode`, from the element `coordinates[i]` on, with the
local variables `lastLat`, `lastLng`, `lastZ` and the builder as state. -/
def encodeLoop {F : Type} (ops : FloatOps F) (polyline : Polyline F) :
    List (Point F) → Int → Int → Int → List Byte → Outcome (List Byte)
  | [], _, _, _, builder => .ok builder
  | location :: rest, lastLat, lastLng, lastZ, builder =>
    let multiplierDegree := ops.pow10 polyline.precision2D.val
    let multiplierZ := ops.pow10 polyline.precision3D.val
    let lat := scaled ops location.Lat multiplierDegree
    (encodeScaledValue (sub64 lat lastLat) builder).andThen fun builder =>
      let lng := scaled ops location.Lng multiplierDegree
      (encodeScaledValue (sub64 lng lastLng) builder).andThen fun builder =>
        if polyline.type3D ≠ Absent then
          let z := scaled ops location.ThirdDim multiplierZ
          (encodeScaledValue (sub64 z lastZ) builder).andThen fun builder =>
            encodeLoop ops polyline rest lat lng z builder
        else
          encodeLoop ops polyline rest lat lng lastZ builder

/-- The function `Encode`.  The call `builder.Grow` only reserves capacity (a
floating point estimate) and is left out. -/
def Encode {F : Type} (ops : FloatOps F) (polyline : Polyline F) : Outcome (List Byte) :=
  (encodeHeader polyline []).andThen fun builder =>
    encodeLoop ops polyline polyline.coordinates 0 0 0 builder

/-- The method `(*Polyline).Encode`. -/
def Polyline.Encode {F : Type} (ops : FloatOps F) (p : Polyline F) : Outcome (List Byte) :=
  FlexPolyline.Encode ops p

/-! ## decode.go -/

/-- The variable `decodingTable`, an array of `int8`. -/
def decodingTable : List Int := [
  62, -1, -1, 52, 53, 54, 55, 56, 57, 58, 59, 60, 61, -1, -1, -1, -1, -1, -1, -1,
  0, 1, 2, 3, 4, 5, 6, 7, 8, 9, 10, 11, 12, 13, 14, 15, 16, 17, 18, 19, 20, 21,
  22, 23, 24, 25, -1, -1, -1, -1, 63, -1, 26, 27, 28, 29, 30, 31, 32, 33, 34, 35,
  36, 37, 38, 39, 40, 41, 42, 43, 44, 45, 46, 47, 48, 49, 50, 51]

/-- The function `decodeChar`.  The index `charValue-45` is a `uint8` and wraps;
an index outside the array panics. -/
def decodeChar (char : Byte) : Outcome Int :=
  let charValue : Fin 256 := char
  match decodingTable[(charValue - 45).val]? with
  | none => .abort
  | some value => if value < 0 then .error .invalidEncoding else .ok value

/-- The function `toSigned`. -/
def toSigned (value : Int) : Int :=
  let value := if and64 value 1 ≠ 0 then not64 value else value
  sar64 value 1

/-- The loop of `decodeValueAndAdvance` from the byte `polyline[i]` on, with
the local variables `result` (`int64`) and `shift` (`uint8`) as state. -/
def decodeValueLoop : List Byte → Int → Fin 256 → Outcome (Int × List Byte)
  | [], result, _ => .ok (result, [])
  | char :: rest, result, shift =>
    (decodeChar char).andThen fun value =>
      let orValue := shl64 (and64 value 0x1F) shift.val
      let result := or64 result orValue
      if and64 value 0x20 = 0 then .ok (result, rest)
      else decodeValueLoop rest result (shift + 5)

/-- The function `decodeValueAndAdvance`. -/
def decodeValueAndAdvance (polyline : List Byte) : Outcome (Int × List Byte) :=
  decodeValueLoop polyline 0 0

/-- The function `decodeHeader`.  Indexing `polyline[0]` panics on the empty
string. -/
def decodeHeader {F : Type} (polyline : List Byte) : Outcome (Polyline F × List Byte) :=
  match polyline with
  | [] => .abort
  | c :: rest =>
    (decodeChar c).andThen fun version =>
      if toU64 version ≠ FormatVersion then .error (.invalidVersion version)
      else
        (decodeValueAndAdvance rest).andThen fun (headerContent, body) =>
          let precision2D : Precision := Fin.ofNat (toU64 (and64 headerContent 15))
          let headerContent := sar64 headerContent 4
          let type3D : Type3D := Fin.ofNat (toU64 (and64 headerContent 7))
          let precision3D : Precision := Fin.ofNat (toU64 (sar64 headerContent 3))
          .ok ({ coordinates := [], precision2D := precision2D,
                 precision3D := precision3D, type3D := type3D }, body)

/-- The point loop of `Decode` with a step budget, with the local variables
`lastLat`, `lastLng`, `lastZ` and `result` as state. -/
def decodeLoop {F : Type} (ops : FloatOps F) (header : Polyline F) :
    Nat → List Byte → F → F → F → List (Point F) → Outcome (List (Point F))
  | _, [], _, _, _, result => .ok result
  | 0, _ :: _, _, _, _, _ => .outOfFuel
  | fuel + 1, c :: cs, lastLat, lastLng, lastZ, result =>
    let multiplierDegree := ops.pow10 header.precision2D.val
    let multiplierZ := ops.pow10 header.precision3D.val
    (decodeValueAndAdvance (c :: cs)).andThen fun r1 =>
      let deltaLat := ops.div (ops.ofInt64 (toSigned r1.1)) multiplierDegree
      let lastLat := ops.add lastLat deltaLat
      (decodeValueAndAdvance r1.2).andThen fun r2 =>
        let deltaLng := ops.div (ops.ofInt64 (toSigned r2.1)) multiplierDegree
        let lastLng := ops.add lastLng deltaLng
        if header.type3D ≠ Absent then
          (decodeValueAndAdvance r2.2).andThen fun r3 =>
            let deltaZ := ops.div (ops.ofInt64 (toSigned r3.1)) multiplierZ
            let lastZ := ops.add lastZ deltaZ
            decodeLoop ops header fuel r3.2 lastLat lastLng lastZ
              (result ++ [{ Lat := lastLat, Lng := lastLng, ThirdDim := lastZ }])
        else
          decodeLoop ops header fuel r2.2 lastLat lastLng lastZ
            (result ++ [{ Lat := lastLat, Lng := lastLng, ThirdDim := ops.zero }])

/-- The function `Decode`.  Every iteration of the point loop consumes at least
one byte of the body, so `len(body)` iterations are enough.  The capacity
estimate of `make` is left out. -/
def Decode {F : Type} (ops : FloatOps F) (polyline : List Byte) : Outcome (Polyline F) :=
  (decodeHeader polyline).andThen fun (header, body) =>
    (decodeLoop ops header body.length body ops.zero ops.zero ops.zero []).andThen fun result =>
      if header.type3D ≠ Absent then
        MustCreatePolyline3D header.type3D header.precision2D header.precision3D result
      else
        MustCreatePolyline header.precision2D result

/-- The function `GetThirdDimension`. -/
def GetThirdDimension (polyline : List Byte) : Outcome Type3D :=
  (decodeHeader (F := Unit) polyline).andThen fun (header, _) =>
    .ok header.type3D

/-- Integer arithmetic standing in for the floating point primitives, for
values that are already scaled: multiplying and dividing by the factor and
rounding change nothing. -/
def scaledOps : FloatOps Int where
  zero := 0
  pow10 := fun p => 10 ^ p
  mul := fun x _ => x
  div := fun x _ => x
  add := fun x y => x + y
  round := fun x => x
  toInt64 := fun x => x
  ofInt64 := fun v => v

/-- An exact fraction `num / den` (with `den` positive, not reduced). -/
structure Frac where
  num : Int
  den : Nat
  deriving DecidableEq, Repr

/-- The product of two fractions. -/
def Frac.mul (a b : Frac) : Frac := ⟨a.num * b.num, a.den * b.den⟩

/-- The sum of two fractions. -/
def Frac.add (a b : Frac) : Frac :=
  if a.den = b.den then ⟨a.num + b.num, a.den⟩
  else ⟨a.num * b.den + b.num * a.den, a.den * b.den⟩

/-- The quotient of two fractions, for a divisor other than 0. -/
def Frac.div (a b : Frac) : Frac :=
  if 0 ≤ b.num then ⟨a.num * b.den, a.den * b.num.toNat⟩
  else ⟨-(a.num * b.den), a.den * (-b.num).toNat⟩

/-- The nearest integer, halves rounded away from zero, as `math.Round` does. -/
def Frac.round (a : Frac) : Frac :=
  if 0 ≤ a.num then ⟨(2 * a.num + a.den) / (2 * a.den), 1⟩
  else ⟨-((2 * (-a.num) + a.den) / (2 * a.den)), 1⟩

/-- The integer part, truncated toward zero, as the conversion `int64(x)` does. -/
def Frac.trunc (a : Frac) : Int := a.num.tdiv a.den

/-- The absolute difference of two fractions. -/
def Frac.absDiff (a b : Frac) : Frac :=
  ⟨((a.num * b.den - b.num * a.den).natAbs : Int), a.den * b.den⟩

/-- The order of fractions (by cross multiplication). -/
def Frac.le (a b : Frac) : Prop := a.num * b.den ≤ b.num * a.den

instance (a b : Frac) : Decidable (Frac.le a b) := by unfold Frac.le; infer_instance

/-- Exact arithmetic on fractions standing in for the floating point
primitives: real multiplication, division, addition and rounding, with no
floating point error. -/
def fracOps : FloatOps Frac where
  zero := ⟨0, 1⟩
  pow10 := fun p => ⟨10 ^ p, 1⟩
  mul := Frac.mul
  div := Frac.div
  add := Frac.add
  round := Frac.round
  toInt64 := Frac.trunc
  ofInt64 := fun v => ⟨v, 1⟩

/-- The variable `toEncode2D` of `encode_test.go`, as exact fractions. -/
def toEncode2D : List (Point Frac) := [
  ⟨⟨501022829, 10000000⟩, ⟨86982122, 10000000⟩, ⟨0, 1⟩⟩,
  ⟨⟨501020076, 10000000⟩, ⟨86956695, 10000000⟩, ⟨0, 1⟩⟩,
  ⟨⟨501006313, 10000000⟩, ⟨86914960, 10000000⟩, ⟨0, 1⟩⟩,
  ⟨⟨500987800, 10000000⟩, ⟨86875156, 10000000⟩, ⟨0, 1⟩⟩]

/-- The variable `toEncode3D` of `encode_test.go`, as exact fractions. -/
def toEncode3D : List (Point Frac) := [
  ⟨⟨501022829, 10000000⟩, ⟨86982122, 10000000⟩, ⟨10, 1⟩⟩,
  ⟨⟨501020076, 10000000⟩, ⟨86956695, 10000000⟩, ⟨20, 1⟩⟩,
  ⟨⟨501006313, 10000000⟩, ⟨86914960, 10000000⟩, ⟨30, 1⟩⟩,
  ⟨⟨500987800, 10000000⟩, ⟨86875156, 10000000⟩, ⟨40, 1⟩⟩]

/-- The variable `toEncodeLong` of `encode_test.go`, as exact fractions. -/
def toEncodeLong : List (Point Frac) := [
  ⟨⟨525199356, 10000000⟩, ⟨133866272, 10000000⟩, ⟨0, 1⟩⟩,
  ⟨⟨525100899, 10000000⟩, ⟨132816896, 10000000⟩, ⟨0, 1⟩⟩,
  ⟨⟨524351807, 10000000⟩, ⟨131935196, 10000000⟩, ⟨0, 1⟩⟩,
  ⟨⟨524107285, 10000000⟩, ⟨131964502, 10000000⟩, ⟨0, 1⟩⟩,
  ⟨⟨5238871, 100000⟩, ⟨131557798, 10000000⟩, ⟨0, 1⟩⟩,
  ⟨⟨523727798, 10000000⟩, ⟨131491003, 10000000⟩, ⟨0, 1⟩⟩,
  ⟨⟨523737488, 10000000⟩, ⟨131154604, 10000000⟩, ⟨0, 1⟩⟩,
  ⟨⟨523875198, 10000000⟩, ⟨130872202, 10000000⟩, ⟨0, 1⟩⟩,
  ⟨⟨524029388, 10000000⟩, ⟨130706196, 10000000⟩, ⟨0, 1⟩⟩,
  ⟨⟨524105797, 10000000⟩, ⟨130755529, 10000000⟩, ⟨0, 1⟩⟩]

/-- Two points with coordinates of 7 decimals and a third dimension of 3
decimals: (50.1022829, 8.6982122, 10.126) and (50.1020076, 8.6956695, -20.005). -/
def roundTripExample : List (Point Frac) := [
  ⟨⟨501022829, 10000000⟩, ⟨86982122, 10000000⟩, ⟨10126, 1000⟩⟩,
  ⟨⟨501020076, 10000000⟩, ⟨86956695, 10000000⟩, ⟨-20005, 1000⟩⟩]

/-! ## Specification-side definitions

These follow the wording of the format description, not the code: they are
what the embedded functions are compared against. -/

/-- The symbols `encodeUint` appends for `value` (to any builder). -/
def uintSymbols (value : Nat) : List Byte :=
  match encodeUint value [] with
  | .ok s => s
  | _ => []

/-- The symbols `encodeScaledValue` appends for the signed `value`. -/
def scaledSymbols (value : Int) : List Byte := uintSymbols (zigzagBits value)

/-- The symbol written for the 6-bit value `i`. -/
def symbolAt (i : Nat) : Byte := encodingTable.getD i 0

/-- The header word `(precision3D << 7) | (type3D << 4) | precision2D`. -/
def headerContent {F : Type} (P : Polyline F) : Nat :=
  (P.precision3D.val <<< 7) ||| (P.type3D.val <<< 4) ||| P.precision2D.val

/-- Whether the polyline carries a third dimension (`Type3D() != Absent`). -/
def is3D {F : Type} (P : Polyline F) : Bool := decide (P.type3D ≠ Absent)

/-- The scaled integer of a coordinate as the format describes it:
`round(coord * 10^precision)`, as a signed 64-bit integer. -/
def roundScaled {F : Type} (ops : FloatOps F) (precision : Precision) (coord : F) : Int :=
  wrapI64 (ops.toInt64 (ops.round (ops.mul coord (ops.pow10 precision.val))))

/-- The rounded scaled integers `(lat, lng, z)` of a point of `P`: latitude and
longitude with `precision2D`, the third dimension with `precision3D`. -/
def scaledPoint {F : Type} (ops : FloatOps F) (P : Polyline F) (pt : Point F) : Int × Int × Int :=
  (roundScaled ops P.precision2D pt.Lat,
   roundScaled ops P.precision2D pt.Lng,
   roundScaled ops P.precision3D pt.ThirdDim)

/-- The rounded scaled integers of all points of `P`, in order. -/
def scaledPoints {F : Type} (ops : FloatOps F) (P : Polyline F) : List (Int × Int × Int) :=
  P.coordinates.map (scaledPoint ops P)

/-- Delta coding: each point's scaled integers minus the previous point's
(`prev` before the first point), in `int64` arithmetic. -/
def pointDeltas : Int × Int × Int → List (Int × Int × Int) → List (Int × Int × Int)
  | _, [] => []
  | prev, p :: ps =>
    (sub64 p.1 prev.1, sub64 p.2.1 prev.2.1, sub64 p.2.2 prev.2.2) :: pointDeltas p ps

/-- The deltas `Encode` writes for `P`: delta coding of its scaled integers,
starting from `(0, 0, 0)`. -/
def deltasOf {F : Type} (ops : FloatOps F) (P : Polyline F) : List (Int × Int × Int) :=
  pointDeltas (0, 0, 0) (scaledPoints ops P)

/-- The deltas in wire order: latitude, longitude and, iff there is a third
dimension, the third one, for each point in order. -/
def wireOrder (threeD : Bool) (deltas : List (Int × Int × Int)) : List Int :=
  deltas.flatMap (fun d => if threeD then [d.1, d.2.1, d.2.2] else [d.1, d.2.1])

/-- The value range in which the codec is exact: `[-2^62, 2^62)`. -/
def Fits (x : Int) : Prop := -2 ^ 62 ≤ x ∧ x < 2 ^ 62

instance (x : Int) : Decidable (Fits x) := by unfold Fits; infer_instance

/-- All scaled coordinates and all consecutive differences (the first against
`prev`) lie in `[-2^62, 2^62)`; the third axis counts only when it is encoded. -/
def RangeOK (threeD : Bool) : Int × Int × Int → List (Int × Int × Int) → Prop
  | _, [] => True
  | prev, p :: ps =>
    (Fits p.1 ∧ Fits (p.1 - prev.1)) ∧ (Fits p.2.1 ∧ Fits (p.2.1 - prev.2.1)) ∧
    (threeD = true → Fits p.2.2 ∧ Fits (p.2.2 - prev.2.2)) ∧ RangeOK threeD p ps

instance instDecidableRangeOK (threeD : Bool) :
    (S : List (Int × Int × Int)) → (prev : Int × Int × Int) → Decidable (RangeOK threeD prev S)
  | [], _ => isTrue trivial
  | p :: ps, prev =>
    have : Decidable (RangeOK threeD p ps) := instDecidableRangeOK threeD ps p
    inferInstanceAs (Decidable ((Fits p.1 ∧ Fits (p.1 - prev.1)) ∧
      (Fits p.2.1 ∧ Fits (p.2.1 - prev.2.1)) ∧
      (threeD = true → Fits p.2.2 ∧ Fits (p.2.2 - prev.2.2)) ∧ RangeOK threeD p ps))

/-- Every delta that is written fits the exact range. -/
def DeltasFit (threeD : Bool) (ds : List (Int × Int × Int)) : Prop :=
  ∀ d ∈ ds, Fits d.1 ∧ Fits d.2.1 ∧ (threeD = true → Fits d.2.2)

/-- Running sums of a list of deltas, starting from `acc`. -/
def runningSums : Int → List Int → List Int
  | _, [] => []
  | acc, d :: ds => (acc + d) :: runningSums (acc + d) ds

/-- The points the decoding loop builds from a list of signed deltas: each axis
adds `float64(delta) / multiplier` to its accumulator; without a third
dimension `ThirdDim` keeps its zero value. -/
def accumulate {F : Type} (ops : FloatOps F) (multiplierDegree multiplierZ : F) (threeD : Bool) :
    List (Int × Int × Int) → F → F → F → List (Point F)
  | [], _, _, _ => []
  | d :: ds, lastLat, lastLng, lastZ =>
    let lat := ops.add lastLat (ops.div (ops.ofInt64 d.1) multiplierDegree)
    let lng := ops.add lastLng (ops.div (ops.ofInt64 d.2.1) multiplierDegree)
    if threeD then
      let z := ops.add lastZ (ops.div (ops.ofInt64 d.2.2) multiplierZ)
      { Lat := lat, Lng := lng, ThirdDim := z } ::
        accumulate ops multiplierDegree multiplierZ threeD ds lat lng z
    else
      { Lat := lat, Lng := lng, ThirdDim := ops.zero } ::
        accumulate ops multiplierDegree multiplierZ threeD ds lat lng lastZ

/-- The signed integers read from a body by successive calls of
`decodeValueAndAdvance` followed by `toSigned`, until the body is used up. -/
def signedValues : Nat → List Byte → Outcome (List Int)
  | _, [] => .ok []
  | 0, _ :: _ => .outOfFuel
  | fuel + 1, c :: cs =>
    (decodeValueAndAdvance (c :: cs)).andThen fun r =>
      (signedValues fuel r.2).andThen fun vs =>
        .ok (toSigned r.1 :: vs)

/-- What `Decode` reads back for a delta `value` that `Encode` wrote: `toSigned`
of the `int64` whose bit pattern `encodeScaledValue` encoded. -/
def readBack (value : Int) : Int := toSigned (toI64 (zigzagBits value))

/-- Grouping of a sequence of deltas into points of two axes; a delta missing
at the end counts as 0. -/
def group2 : List Int → List (Int × Int × Int)
  | [] => []
  | [a] => [(a, 0, 0)]
  | a :: b :: rest => (a, b, 0) :: group2 rest

/-- Grouping of a sequence of deltas into points of three axes; deltas missing
at the end count as 0. -/
def group3 : List Int → List (Int × Int × Int)
  | [] => []
  | [a] => [(a, 0, 0)]
  | [a, b] => [(a, b, 0)]
  | a :: b :: c :: rest => (a, b, c) :: group3 rest

/-- Grouping of a sequence of deltas into points, 3 per point with a third
dimension and 2 per point without. -/
def groupPoints (threeD : Bool) (vs : List Int) : List (Int × Int × Int) :=
  if threeD then group3 vs else group2 vs

/-- The invariant of a constructed polyline: both precisions at most 15 and a
kind among 0, 1, 2, 3, 6, 7. -/
def Valid {F : Type} (P : Polyline F) : Prop :=
  P.precision2D ≤ 15 ∧ P.precision3D ≤ 15 ∧
  (P.type3D = 0 ∨ P.type3D = 1 ∨ P.type3D = 2 ∨ P.type3D = 3 ∨ P.type3D = 6 ∨ P.type3D = 7)

/-- A byte of the 64-symbol alphabet. -/
def IsSymbol (c : Byte) : Prop := c ∈ encodingTable

instance (c : Byte) : Decidable (IsSymbol c) := by unfold IsSymbol; infer_instance

/-- The 6-bit value of an alphabet symbol: its position in the alphabet
`A-Z a-z 0-9 - _`. -/
def sixBits (c : Byte) : Nat := encodingTable.indexOf c

/-- The number whose 5-bit chunks, least significant first, are the low 5 bits
of the given 6-bit values: the sum of `chunk_i * 32^i`. -/
def littleEndian : List Nat → Nat
  | [] => 0
  | d :: ds => d % 32 + 32 * littleEndian ds

/-- The accumulation of a varint as the format describes it: for each 6-bit
value in turn `result |= (low 5 bits) << shift` and `shift += 5`, on a signed
64-bit `result` and an 8-bit `shift`. -/
def assemble : List Nat → Int → Fin 256 → Int
  | [], result, _ => result
  | d :: ds, result, shift =>
    assemble ds (or64 result (shl64 (and64 (d : Int) 0x1F) shift.val)) (shift + 5)

/-- A symbol whose continuation bit `0x20` is set. -/
def Continues (c : Byte) : Prop := ∃ value, decodeChar c = .ok value ∧ and64 value 0x20 ≠ 0

/-! ## Machine integer lemmas -/

@[simp] theorem andThen_ok {α β : Type} (a : α) (f : α → Outcome β) :
    (Outcome.ok a).andThen f = f a := rfl

theorem toU64_lt (x : Int) : toU64 x < 2 ^ 64 := by
  unfold toU64; omega

theorem toI64_of_lt {n : Nat} (h : n < 2 ^ 63) : toI64 n = (n : Int) := by
  unfold toI64
  have : n % 2 ^ 64 = n := Nat.mod_eq_of_lt (by omega)
  rw [this, if_pos h]

theorem toU64_toI64 (n : Nat) : toU64 (toI64 n) = n % 2 ^ 64 := by
  unfold toU64 toI64
  split <;> omega

theorem toU64_natCast {n : Nat} (h : n < 2 ^ 64) : toU64 (n : Int) = n := by
  unfold toU64; omega

theorem toU64_of_neg {x : Int} (h0 : x < 0) (h : -2 ^ 63 ≤ x) : toU64 x = (x + 2 ^ 64).toNat := by
  unfold toU64; omega

theorem wrapI64_of_fits {x : Int} (h0 : -2 ^ 63 ≤ x) (h : x < 2 ^ 63) : wrapI64 x = x := by
  unfold wrapI64 toI64 toU64
  split <;> omega

theorem wrapI64_range (x : Int) : -2 ^ 63 ≤ wrapI64 x ∧ wrapI64 x < 2 ^ 63 := by
  unfold wrapI64 toI64 toU64
  split <;> omega

theorem or_eq_add {r c s : Nat} (hr : r < 2 ^ s) : r ||| (c * 2 ^ s) = r + c * 2 ^ s := by
  rw [Nat.or_comm, Nat.mul_comm c, ← Nat.mul_add_lt_is_or hr, Nat.add_comm]

theorem zigzag_nonneg {v : Int} (h0 : 0 ≤ v) (h : v < 2 ^ 62) : zigzagBits v = (2 * v).toNat := by
  unfold zigzagBits
  simp only [Nat.shiftLeft_eq]
  rw [if_neg (by omega)]
  unfold toU64; omega

theorem zigzag_neg {v : Int} (h0 : v < 0) (h : -2 ^ 62 ≤ v) : zigzagBits v = (-2 * v - 1).toNat := by
  unfold zigzagBits notU64
  simp only [Nat.shiftLeft_eq]
  rw [if_pos h0]
  unfold toU64; omega

theorem zigzagBits_lt (v : Int) : zigzagBits v < 2 ^ 64 := by
  unfold zigzagBits notU64
  simp only []
  split
  · omega
  · exact Nat.mod_lt _ (by decide)

theorem toSigned_zigzag {v : Int} (h0 : -2 ^ 62 ≤ v) (h : v < 2 ^ 62) :
    toSigned (toI64 (zigzagBits v)) = v := by
  unfold toSigned and64 not64 sar64
  rw [toU64_toI64, Int.shiftRight_eq_div_pow]
  by_cases hv : 0 ≤ v
  · rw [zigzag_nonneg hv h]
    have e : (2 * v).toNat % 2 ^ 64 = (2 * v).toNat := Nat.mod_eq_of_lt (by omega)
    have e1 : toU64 1 = 1 := by decide
    rw [e, e1, Nat.and_one_is_mod]
    have e2 : (2 * v).toNat % 2 = 0 := by omega
    rw [e2]
    have e3 : toI64 0 = 0 := by decide
    rw [e3]
    simp only [ne_eq, not_true_eq_false, if_false]
    rw [toI64_of_lt (by omega)]
    omega
  · rw [zigzag_neg (by omega) h0]
    have e : (-2 * v - 1).toNat % 2 ^ 64 = (-2 * v - 1).toNat := Nat.mod_eq_of_lt (by omega)
    have e1 : toU64 1 = 1 := by decide
    rw [e, e1, Nat.and_one_is_mod]
    have e2 : (-2 * v - 1).toNat % 2 = 1 := by omega
    rw [e2]
    have e3 : toI64 1 = 1 := by decide
    rw [e3]
    simp only [ne_eq, one_ne_zero, not_false_eq_true, if_true]
    unfold notU64 toI64
    split <;> omega

/-! ## Varint lemmas -/

set_option maxRecDepth 100000 in
theorem table_inverse : ∀ i : Fin 64,
    encodingTable[i.val]? = some (symbolAt i.val) ∧ decodeChar (symbolAt i.val) = .ok (i.val : Int) := by
  decide

set_option maxRecDepth 100000 in
theorem sixbit_masks : ∀ i : Fin 64,
    and64 (i.val : Int) 0x1F = ((i.val % 32 : Nat) : Int) ∧ (and64 (i.val : Int) 0x20 = 0 ↔ i.val < 32) := by
  decide

theorem writeSymbol_ok {pos : Nat} (h : pos < 64) (b : List Byte) :
    writeSymbol pos b = .ok (b ++ [symbolAt pos]) := by
  unfold writeSymbol
  rw [(table_inverse ⟨pos, h⟩).1]

theorem or64_shl {r c shift : Nat} (hr : r < 2 ^ shift) (h : r + c * 2 ^ shift < 2 ^ 64) :
    or64 (toI64 r) (shl64 (c : Int) shift) = toI64 (r + c * 2 ^ shift) := by
  have hpos : 0 < 2 ^ shift := Nat.two_pow_pos shift
  have hc : c ≤ c * 2 ^ shift := Nat.le_mul_of_pos_right c hpos
  unfold or64 shl64
  rw [toU64_toI64, toU64_toI64, toU64_natCast (by omega), Nat.shiftLeft_eq,
    Nat.mod_eq_of_lt (show r < 2 ^ 64 by omega), Nat.mod_mod,
    Nat.mod_eq_of_lt (show c * 2 ^ shift < 2 ^ 64 by omega), or_eq_add hr]

theorem low5_or_cont (v : Nat) : (v &&& 0x1F) ||| 0x20 = v % 32 + 32 := by
  have h1 : v &&& 0x1F = v % 32 := Nat.and_pow_two_sub_one_eq_mod v 5
  have h2 : v % 32 < 2 ^ 5 := Nat.mod_lt _ (by decide)
  have h3 := or_eq_add (c := 1) h2
  rw [h1]
  simpa using h3

theorem varint_loop : ∀ (fuel v r shift : Nat) (hs : shift < 64), v < 32 ^ fuel → 0 < fuel →
    r < 2 ^ shift → r + v * 2 ^ shift < 2 ^ 64 →
    ∃ s : List Byte, s ≠ [] ∧ (∀ b, encodeUintLoop fuel v b = .ok (b ++ s)) ∧
      ∀ rest, decodeValueLoop (s ++ rest) (toI64 r) ⟨shift, by omega⟩
        = .ok (toI64 (r + v * 2 ^ shift), rest) := by
  intro fuel
  induction fuel with
  | zero => intro v r shift hs _ h0; omega
  | succ fuel ih =>
    intro v r shift hs hv _ hr hsum
    by_cases hbig : v > 0x1F
    · -- the loop body runs: one symbol with the continuation bit
      have hpos : v % 32 + 32 < 64 := by omega
      have hfuel : 0 < fuel := by
        rcases Nat.eq_zero_or_pos fuel with h | h
        · subst h; simp at hv; omega
        · exact h
      have hv' : v / 32 < 32 ^ fuel := by
        rw [Nat.div_lt_iff_lt_mul (by decide)]
        rw [Nat.pow_succ] at hv; exact hv
      have h2 : (2 : Nat) ^ (shift + 5) = 2 ^ shift * 32 := by rw [Nat.pow_add]
      have hpow : 0 < 2 ^ shift := Nat.two_pow_pos shift
      have hdecomp : v * 2 ^ shift = (v % 32) * 2 ^ shift + (v / 32) * 2 ^ (shift + 5) := by
        rw [h2]
        have := Nat.div_add_mod v 32
        calc v * 2 ^ shift = (32 * (v / 32) + v % 32) * 2 ^ shift := by rw [this]
          _ = (v % 32) * 2 ^ shift + (v / 32) * (2 ^ shift * 32) := by ring
      have hs' : shift + 5 < 64 := by
        by_contra hcon
        have : 2 ^ 64 ≤ 32 * 2 ^ shift := by
          have : (2 : Nat) ^ 64 ≤ 2 ^ (shift + 5) := Nat.pow_le_pow_right (by decide) (by omega)
          omega
        have : 32 * 2 ^ shift ≤ v * 2 ^ shift := Nat.mul_le_mul_right _ (by omega)
        omega
      have hr' : r + (v % 32) * 2 ^ shift < 2 ^ (shift + 5) := by
        have : (v % 32) * 2 ^ shift ≤ 31 * 2 ^ shift := Nat.mul_le_mul_right _ (by omega)
        omega
      obtain ⟨s, hne, henc, hdec⟩ := ih (v / 32) (r + (v % 32) * 2 ^ shift) (shift + 5) hs' hv' hfuel hr'
        (by omega)
      refine ⟨symbolAt (v % 32 + 32) :: s, by simp, ?_, ?_⟩
      · intro b
        rw [encodeUintLoop, if_pos hbig]
        simp only [low5_or_cont, writeSymbol_ok hpos, Nat.shiftRight_eq_div_pow, andThen_ok]
        rw [show v / 2 ^ 5 = v / 32 by norm_num, henc]
        simp
      · intro rest
        have hm := sixbit_masks ⟨v % 32 + 32, hpos⟩
        have ht := (table_inverse ⟨v % 32 + 32, hpos⟩).2
        simp only at hm ht
        rw [List.cons_append, decodeValueLoop, ht]
        simp only [hm.1, andThen_ok]
        have hnot : ¬ and64 ((v % 32 + 32 : Nat) : Int) 0x20 = 0 := by
          rw [hm.2]; omega
        rw [if_neg hnot]
        have e1 : (v % 32 + 32) % 32 = v % 32 := by omega
        rw [e1, or64_shl hr (by omega)]
        have e2 : (⟨shift, by omega⟩ + 5 : Fin 256) = ⟨shift + 5, by omega⟩ := by
          apply Fin.ext
          rw [Fin.val_add]
          show (shift + 5) % 256 = shift + 5
          omega
        rw [e2, hdec rest]
        congr 3
        omega
    · -- the last symbol
      have hpos : v < 64 := by omega
      refine ⟨[symbolAt v], by simp, ?_, ?_⟩
      · intro b
        rw [encodeUintLoop, if_neg hbig, writeSymbol_ok hpos]
      · intro rest
        have hm := sixbit_masks ⟨v, hpos⟩
        have ht := (table_inverse ⟨v, hpos⟩).2
        simp only at hm ht
        rw [List.cons_append, decodeValueLoop, ht]
        simp only [hm.1, andThen_ok]
        have hyes : and64 ((v : Nat) : Int) 0x20 = 0 := by
          rw [hm.2]; omega
        rw [if_pos hyes]
        have e1 : v % 32 = v := by omega
        rw [e1, or64_shl hr hsum]
        rfl

theorem encodeUint_then_decode {v : Nat} (hv : v < 2 ^ 64) :
    ∃ s : List Byte, s ≠ [] ∧ (∀ b, encodeUint v b = .ok (b ++ s)) ∧
      ∀ rest, decodeValueAndAdvance (s ++ rest) = .ok (toI64 v, rest) := by
  obtain ⟨s, hne, henc, hdec⟩ := varint_loop 13 v 0 0 (by decide) (by omega) (by decide) (by decide)
    (by omega)
  refine ⟨s, hne, henc, ?_⟩
  intro rest
  have := hdec rest
  simpa [decodeValueAndAdvance] using this

/-! ## Closed form of `Encode` -/

theorem encodeUint_eq {v : Nat} (hv : v < 2 ^ 64) (b : List Byte) :
    encodeUint v b = .ok (b ++ uintSymbols v) := by
  obtain ⟨s, _, henc, _⟩ := encodeUint_then_decode hv
  have h0 := henc []
  rw [List.nil_append] at h0
  unfold uintSymbols
  rw [h0, henc b]

theorem uintSymbols_ne_nil {v : Nat} (hv : v < 2 ^ 64) : uintSymbols v ≠ [] := by
  obtain ⟨s, hne, henc, _⟩ := encodeUint_then_decode hv
  have h0 := henc []
  rw [List.nil_append] at h0
  unfold uintSymbols
  rw [h0]
  exact hne

theorem decode_uintSymbols {v : Nat} (hv : v < 2 ^ 64) (rest : List Byte) :
    decodeValueAndAdvance (uintSymbols v ++ rest) = .ok (toI64 v, rest) := by
  obtain ⟨s, _, henc, hdec⟩ := encodeUint_then_decode hv
  have h0 := henc []
  rw [List.nil_append] at h0
  unfold uintSymbols
  rw [h0]
  exact hdec rest

theorem encodeScaledValue_eq (value : Int) (b : List Byte) :
    encodeScaledValue value b = .ok (b ++ scaledSymbols value) :=
  encodeUint_eq (zigzagBits_lt value) b

theorem scaledSymbols_ne_nil (value : Int) : scaledSymbols value ≠ [] :=
  uintSymbols_ne_nil (zigzagBits_lt value)

theorem decode_scaledSymbols {value : Int} (h : Fits value) (rest : List Byte) :
    ∃ n, decodeValueAndAdvance (scaledSymbols value ++ rest) = .ok (n, rest) ∧ toSigned n = value :=
  ⟨_, decode_uintSymbols (zigzagBits_lt value) rest, toSigned_zigzag h.1 h.2⟩

theorem headerContent_lt {F : Type} (P : Polyline F) : headerContent P < 2 ^ 15 := by
  unfold headerContent
  have h1 := P.precision3D.isLt
  have h2 := P.type3D.isLt
  have h3 := P.precision2D.isLt
  apply Nat.or_lt_two_pow
  · apply Nat.or_lt_two_pow
    · rw [Nat.shiftLeft_eq]; omega
    · rw [Nat.shiftLeft_eq]; omega
  · omega

theorem version_symbols : uintSymbols FormatVersion = bytes "B" := by decide

theorem encodeHeader_eq {F : Type} (P : Polyline F) (b : List Byte) :
    encodeHeader P b = .ok (b ++ bytes "B" ++ uintSymbols (headerContent P)) := by
  have hlt := headerContent_lt P
  unfold encodeHeader
  rw [encodeUint_eq (by decide), version_symbols]
  simp only [andThen_ok]
  rw [← headerContent, encodeUint_eq (by omega)]

theorem wireOrder_cons (threeD : Bool) (d : Int × Int × Int) (ds : List (Int × Int × Int)) :
    wireOrder threeD (d :: ds)
      = (if threeD then [d.1, d.2.1, d.2.2] else [d.1, d.2.1]) ++ wireOrder threeD ds := by
  simp [wireOrder]

theorem wireOrder_2D_prev (a b z z' : Int) (S : List (Int × Int × Int)) :
    wireOrder false (pointDeltas (a, b, z) S) = wireOrder false (pointDeltas (a, b, z') S) := by
  cases S with
  | nil => rfl
  | cons p ps => simp [pointDeltas, wireOrder_cons]

theorem encodeLoop_eq {F : Type} (ops : FloatOps F) (P : Polyline F) :
    ∀ (pts : List (Point F)) (lastLat lastLng lastZ : Int) (b : List Byte),
      encodeLoop ops P pts lastLat lastLng lastZ b
        = .ok (b ++ (wireOrder (is3D P)
            (pointDeltas (lastLat, lastLng, lastZ) (pts.map (scaledPoint ops P)))).flatMap
              scaledSymbols) := by
  intro pts
  induction pts with
  | nil =>
    intro _ _ _ b
    show Outcome.ok b = Outcome.ok (b ++ [])
    rw [List.append_nil]
  | cons pt rest ih =>
    intro lastLat lastLng lastZ b
    rw [encodeLoop]
    simp only [encodeScaledValue_eq, andThen_ok]
    by_cases h3 : P.type3D ≠ Absent
    · have hb : is3D P = true := by simp [is3D, h3]
      rw [if_pos h3, ih]
      simp [pointDeltas, wireOrder_cons, hb, scaledPoint, roundScaled, scaled, List.flatMap_cons]
    · have hb : is3D P = false := by simp [is3D, h3]
      rw [if_neg h3, ih]
      rw [hb, wireOrder_2D_prev _ _ lastZ (scaled ops pt.ThirdDim (ops.pow10 P.precision3D.val))]
      simp [pointDeltas, wireOrder_cons, scaledPoint, roundScaled, scaled, List.flatMap_cons]

theorem Encode_eq {F : Type} (ops : FloatOps F) (P : Polyline F) :
    Encode ops P = .ok (bytes "B" ++ uintSymbols (headerContent P) ++
      (wireOrder (is3D P) (pointDeltas (0, 0, 0) (scaledPoints ops P))).flatMap scaledSymbols) := by
  unfold Encode
  rw [encodeHeader_eq]
  simp only [List.nil_append, andThen_ok]
  rw [encodeLoop_eq]
  rfl

/-! ## Header lemmas -/

theorem headerContent_eq {F : Type} (P : Polyline F) (hk : P.type3D.val ≤ 7)
    (h2 : P.precision2D.val ≤ 15) :
    headerContent P = P.precision3D.val * 128 + P.type3D.val * 16 + P.precision2D.val := by
  unfold headerContent
  rw [Nat.shiftLeft_eq, Nat.shiftLeft_eq]
  have e1 : P.precision3D.val * 2 ^ 7 ||| P.type3D.val * 2 ^ 4
      = P.type3D.val * 2 ^ 4 + P.precision3D.val * 2 ^ 7 := by
    rw [Nat.or_comm]
    exact or_eq_add (by omega)
  have e2 : P.type3D.val * 2 ^ 4 + P.precision3D.val * 2 ^ 7
      = (P.precision3D.val * 8 + P.type3D.val) * 2 ^ 4 := by omega
  rw [e1, e2, Nat.or_comm, or_eq_add (by omega)]
  omega

theorem and64_low {n : Nat} (hn : n < 2 ^ 63) (k : Nat) (hk : k < 63) :
    and64 (n : Int) ((2 ^ k - 1 : Nat) : Int) = ((n % 2 ^ k : Nat) : Int) := by
  have hpow : 2 ^ k < 2 ^ 63 := Nat.pow_lt_pow_right (by decide) hk
  have hpos : 0 < 2 ^ k := Nat.two_pow_pos k
  unfold and64
  rw [toU64_natCast (by omega), toU64_natCast (by omega), Nat.and_pow_two_sub_one_eq_mod,
    toI64_of_lt]
  have := Nat.mod_lt n hpos
  omega

theorem sar64_natCast (n k : Nat) : sar64 (n : Int) k = ((n / 2 ^ k : Nat) : Int) := by
  unfold sar64
  rw [Int.shiftRight_eq_div_pow]
  norm_cast

theorem header_fields {p2 k p3 : Nat} (h2 : p2 ≤ 15) (hk : k ≤ 7) (h3 : p3 < 256) :
    toU64 (and64 (toI64 (p3 * 128 + k * 16 + p2)) 15) = p2 ∧
    toU64 (and64 (sar64 (toI64 (p3 * 128 + k * 16 + p2)) 4) 7) = k ∧
    toU64 (sar64 (sar64 (toI64 (p3 * 128 + k * 16 + p2)) 4) 3) = p3 := by
  have hlt : p3 * 128 + k * 16 + p2 < 2 ^ 63 := by omega
  rw [toI64_of_lt hlt, sar64_natCast, sar64_natCast]
  have m15 := and64_low hlt 4 (by decide)
  have hlt7 : (p3 * 128 + k * 16 + p2) / 2 ^ 4 < 2 ^ 63 := by omega
  have m7 := and64_low hlt7 3 (by decide)
  simp only [Nat.reducePow, Nat.add_one_sub_one, Nat.cast_ofNat] at m15 m7
  simp only [Nat.reducePow]
  rw [m15, m7, toU64_natCast (by omega), toU64_natCast (by omega), toU64_natCast (by omega)]
  omega

theorem decodeHeader_eq {F G : Type} (P : Polyline G) (hk : P.type3D.val ≤ 7)
    (h2 : P.precision2D.val ≤ 15) (body : List Byte) :
    decodeHeader (F := F) (bytes "B" ++ uintSymbols (headerContent P) ++ body)
      = .ok ({ coordinates := [], precision2D := P.precision2D, precision3D := P.precision3D,
               type3D := P.type3D }, body) := by
  have hB : bytes "B" = [(66 : Byte)] := by decide
  have hc : decodeChar (66 : Byte) = .ok 1 := by decide
  have hv : ¬ toU64 1 ≠ FormatVersion := by decide
  have hlt := headerContent_lt P
  rw [hB, List.append_assoc, List.singleton_append, decodeHeader, hc]
  simp only [andThen_ok]
  rw [if_neg hv, decode_uintSymbols (by omega)]
  simp only [andThen_ok]
  rw [headerContent_eq P hk h2]
  obtain ⟨f1, f2, f3⟩ := header_fields h2 hk P.precision3D.isLt
  rw [f1, f2, f3]
  have g : ∀ x : Fin 256, (Fin.ofNat x.val : Fin 256) = x := by
    intro x
    apply Fin.ext
    show x.val % 256 = x.val
    exact Nat.mod_eq_of_lt x.isLt
  rw [g, g, g]

/-! ## The point loop of `Decode` -/

theorem sub64_of_fits {a b : Int} (h : Fits (a - b)) : sub64 a b = a - b := by
  obtain ⟨h1, h2⟩ := h
  exact wrapI64_of_fits (by omega) (by omega)

theorem deltasFit_of_rangeOK (threeD : Bool) :
    ∀ (S : List (Int × Int × Int)) (prev : Int × Int × Int),
      RangeOK threeD prev S → DeltasFit threeD (pointDeltas prev S) := by
  intro S
  induction S with
  | nil => intro prev _ d hd; simp [pointDeltas] at hd
  | cons p ps ih =>
    intro prev h d hd
    obtain ⟨⟨_, ha⟩, ⟨_, hb⟩, hc, hrest⟩ := h
    rw [pointDeltas, List.mem_cons] at hd
    rcases hd with hd | hd
    · subst hd
      refine ⟨?_, ?_, ?_⟩
      · show Fits (sub64 p.1 prev.1)
        rw [sub64_of_fits ha]; exact ha
      · show Fits (sub64 p.2.1 prev.2.1)
        rw [sub64_of_fits hb]; exact hb
      · intro h3
        show Fits (sub64 p.2.2 prev.2.2)
        rw [sub64_of_fits (hc h3).2]; exact (hc h3).2
    · exact ih p hrest d hd

theorem pointDeltas_length : ∀ (S : List (Int × Int × Int)) (prev : Int × Int × Int),
    (pointDeltas prev S).length = S.length := by
  intro S
  induction S with
  | nil => intro _; rfl
  | cons p ps ih => intro prev; simp [pointDeltas, ih]

theorem accumulate_length {F : Type} (ops : FloatOps F) (m2 m3 : F) (threeD : Bool) :
    ∀ (ds : List (Int × Int × Int)) (lat lng z : F),
      (accumulate ops m2 m3 threeD ds lat lng z).length = ds.length := by
  intro ds
  induction ds with
  | nil => intro _ _ _; rfl
  | cons d ds ih =>
    intro lat lng z
    rw [accumulate]
    cases threeD <;> simp [ih]

theorem wire_length_ge (threeD : Bool) : ∀ ds : List (Int × Int × Int),
    ds.length ≤ ((wireOrder threeD ds).flatMap scaledSymbols).length := by
  intro ds
  induction ds with
  | nil => simp
  | cons d ds ih =>
    rw [wireOrder_cons]
    have h1 : 0 < (scaledSymbols d.1).length := List.length_pos.mpr (scaledSymbols_ne_nil _)
    cases threeD <;>
      simp only [List.flatMap_cons, List.flatMap_append, List.length_append, List.length_cons,
        if_true, if_false, Bool.false_eq_true, List.flatMap_nil] <;> omega

theorem decodeLoop_eq {F : Type} (ops : FloatOps F) (header : Polyline F) :
    ∀ (ds : List (Int × Int × Int)) (fuel : Nat) (lat lng z : F) (result : List (Point F)),
      ds.length ≤ fuel → DeltasFit (is3D header) ds →
      decodeLoop ops header fuel ((wireOrder (is3D header) ds).flatMap scaledSymbols) lat lng z result
        = .ok (result ++ accumulate ops (ops.pow10 header.precision2D.val)
            (ops.pow10 header.precision3D.val) (is3D header) ds lat lng z) := by
  intro ds
  induction ds with
  | nil =>
    intro fuel lat lng z result _ _
    show decodeLoop ops header fuel [] lat lng z result = _
    rw [accumulate, List.append_nil]
    cases fuel <;> rfl
  | cons d ds ih =>
    intro fuel lat lng z result hfuel hfit
    obtain ⟨fuel, rfl⟩ : ∃ f, fuel = f + 1 := ⟨fuel - 1, by simp at hfuel; omega⟩
    have hd := hfit d (List.mem_cons_self _ _)
    have hfit' : DeltasFit (is3D header) ds := fun x hx => hfit x (List.mem_cons_of_mem _ hx)
    have hfuel' : ds.length ≤ fuel := by simp at hfuel; omega
    by_cases h3 : header.type3D ≠ Absent
    · have hb : is3D header = true := by simp [is3D, h3]
      rw [hb] at hd hfit' ih ⊢
      obtain ⟨n1, e1, s1⟩ := decode_scaledSymbols hd.1
        (scaledSymbols d.2.1 ++ (scaledSymbols d.2.2 ++ (wireOrder true ds).flatMap scaledSymbols))
      obtain ⟨n2, e2, s2⟩ := decode_scaledSymbols hd.2.1
        (scaledSymbols d.2.2 ++ (wireOrder true ds).flatMap scaledSymbols)
      obtain ⟨n3, e3, s3⟩ := decode_scaledSymbols (hd.2.2 rfl)
        ((wireOrder true ds).flatMap scaledSymbols)
      have hline : (wireOrder true (d :: ds)).flatMap scaledSymbols
          = scaledSymbols d.1 ++ (scaledSymbols d.2.1 ++ (scaledSymbols d.2.2 ++
              (wireOrder true ds).flatMap scaledSymbols)) := by
        simp [wireOrder_cons, List.flatMap_append, List.flatMap_cons]
      rw [hline]
      obtain ⟨c, cs, hcs⟩ := List.exists_cons_of_ne_nil (scaledSymbols_ne_nil d.1)
      rw [hcs, List.cons_append, decodeLoop, ← List.cons_append, ← hcs, e1]
      simp only [andThen_ok, e2, e3, s1, s2, s3, if_pos h3]
      rw [ih fuel _ _ _ _ hfuel' hfit', accumulate]
      simp
    · have hb : is3D header = false := by simp [is3D, h3]
      rw [hb] at hd hfit' ih ⊢
      obtain ⟨n1, e1, s1⟩ := decode_scaledSymbols hd.1
        (scaledSymbols d.2.1 ++ (wireOrder false ds).flatMap scaledSymbols)
      obtain ⟨n2, e2, s2⟩ := decode_scaledSymbols hd.2.1
        ((wireOrder false ds).flatMap scaledSymbols)
      have hline : (wireOrder false (d :: ds)).flatMap scaledSymbols
          = scaledSymbols d.1 ++ (scaledSymbols d.2.1 ++
              (wireOrder false ds).flatMap scaledSymbols) := by
        simp [wireOrder_cons, List.flatMap_append, List.flatMap_cons]
      rw [hline]
      obtain ⟨c, cs, hcs⟩ := List.exists_cons_of_ne_nil (scaledSymbols_ne_nil d.1)
      rw [hcs, List.cons_append, decodeLoop, ← List.cons_append, ← hcs, e1]
      simp only [andThen_ok, e2, s1, s2, if_neg h3]
      rw [ih fuel _ _ _ _ hfuel' hfit', accumulate]
      simp

theorem signedValues_eq : ∀ (vs : List Int) (fuel : Nat), vs.length ≤ fuel → (∀ v ∈ vs, Fits v) →
    signedValues fuel (vs.flatMap scaledSymbols) = .ok vs := by
  intro vs
  induction vs with
  | nil => intro fuel _ _; cases fuel <;> rfl
  | cons v vs ih =>
    intro fuel hfuel hfit
    obtain ⟨fuel, rfl⟩ : ∃ f, fuel = f + 1 := ⟨fuel - 1, by simp at hfuel; omega⟩
    obtain ⟨n, e, s⟩ := decode_scaledSymbols (hfit v (List.mem_cons_self _ _))
      (vs.flatMap scaledSymbols)
    rw [List.flatMap_cons]
    obtain ⟨c, cs, hcs⟩ := List.exists_cons_of_ne_nil (scaledSymbols_ne_nil v)
    rw [hcs, List.cons_append, signedValues, ← List.cons_append, ← hcs, e]
    simp only [andThen_ok]
    rw [ih fuel (by simp at hfuel; omega) (fun x hx => hfit x (List.mem_cons_of_mem _ hx))]
    simp only [andThen_ok, s]

theorem wireOrder_fits (threeD : Bool) (ds : List (Int × Int × Int)) (h : DeltasFit threeD ds) :
    ∀ v ∈ wireOrder threeD ds, Fits v := by
  intro v hv
  simp only [wireOrder, List.mem_flatMap] at hv
  obtain ⟨d, hd, hv⟩ := hv
  have := h d hd
  cases threeD
  · simp at hv
    rcases hv with rfl | rfl
    · exact this.1
    · exact this.2.1
  · simp at hv
    rcases hv with rfl | rfl | rfl
    · exact this.1
    · exact this.2.1
    · exact this.2.2 rfl

theorem wireOrder_length_ge (threeD : Bool) (ds : List (Int × Int × Int)) :
    (wireOrder threeD ds).length ≤ ((wireOrder threeD ds).flatMap scaledSymbols).length := by
  generalize wireOrder threeD ds = vs
  induction vs with
  | nil => simp
  | cons v vs ih =>
    have h1 : 0 < (scaledSymbols v).length := List.length_pos.mpr (scaledSymbols_ne_nil _)
    simp only [List.flatMap_cons, List.length_append, List.length_cons]
    omega

theorem runningSums_lat : ∀ (S : List (Int × Int × Int)) (prev : Int × Int × Int) (threeD : Bool),
    RangeOK threeD prev S →
    runningSums prev.1 ((pointDeltas prev S).map (fun d => d.1)) = S.map (fun p => p.1) ∧
    runningSums prev.2.1 ((pointDeltas prev S).map (fun d => d.2.1)) = S.map (fun p => p.2.1) ∧
    (threeD = true →
      runningSums prev.2.2 ((pointDeltas prev S).map (fun d => d.2.2)) = S.map (fun p => p.2.2)) := by
  intro S
  induction S with
  | nil => intro _ _ _; simp [pointDeltas, runningSums]
  | cons p ps ih =>
    intro prev threeD h
    obtain ⟨⟨_, ha⟩, ⟨_, hb⟩, hc, hrest⟩ := h
    obtain ⟨i1, i2, i3⟩ := ih p threeD hrest
    simp only [pointDeltas, List.map_cons, runningSums]
    rw [sub64_of_fits ha, sub64_of_fits hb]
    have e1 : prev.1 + (p.1 - prev.1) = p.1 := by omega
    have e2 : prev.2.1 + (p.2.1 - prev.2.1) = p.2.1 := by omega
    rw [e1, e2, i1, i2]
    refine ⟨rfl, rfl, ?_⟩
    intro h3
    rw [sub64_of_fits (hc h3).2]
    have e3 : prev.2.2 + (p.2.2 - prev.2.2) = p.2.2 := by omega
    rw [e3, i3 h3]

/-! ## Construction (data.go) -/

theorem checkArgs_eq_none_iff (type3D : Type3D) (precision2D precision3D : Precision) :
    checkArgs type3D precision2D precision3D = none ↔
      ¬ (precision2D > 15 ∨ precision3D > 15 ∨ type3D > 7 ∨ type3D = 4 ∨ type3D = 5) := by
  unfold checkArgs Custom2 Reserved1 Reserved2
  by_cases h1 : precision2D > 15
  · simp [h1]
  by_cases h2 : type3D > 7
  · simp [h1, h2]
  by_cases h3 : type3D = 4 ∨ type3D = 5
  · rcases h3 with h3 | h3 <;> simp [h1, h2, h3]
  by_cases h4 : precision3D > 15
  · simp [h1, h2, h3, h4]
  · simp only [h1, h2, h3, h4, if_false, or_false, false_or, not_false_eq_true, true_iff]

/-- C8: `CreatePolyline3D` returns an error exactly when `precision2D > 15`, or
`precision3D > 15`, or the kind is above 7, or the kind is 4 (`Reserved1`) or 5
(`Reserved2`); otherwise it returns the polyline holding exactly the kind, the
two precisions and the points.  Precision 16 fails and 15 succeeds, kinds 4, 5
and 8 fail, kinds 6 and 7 succeed, and `precision3D` is checked even when the
kind is `Absent`. -/
theorem CreatePolyline3D_error_iff {F : Type} (type3D : Type3D) (precision2D precision3D : Precision)
    (points : List (Point F)) :
    ((∃ e, CreatePolyline3D type3D precision2D precision3D points = .error e) ↔
      (precision2D > 15 ∨ precision3D > 15 ∨ type3D > 7 ∨ type3D = 4 ∨ type3D = 5)) ∧
    (CreatePolyline3D type3D precision2D precision3D points
        = .ok { coordinates := points, precision2D := precision2D,
                precision3D := precision3D, type3D := type3D } ↔
      ¬ (precision2D > 15 ∨ precision3D > 15 ∨ type3D > 7 ∨ type3D = 4 ∨ type3D = 5)) ∧
    (∀ P, CreatePolyline3D type3D precision2D precision3D points = .ok P →
      P.type3D = type3D ∧ P.precision2D = precision2D ∧ P.precision3D = precision3D ∧
      P.coordinates = points) ∧
    CreatePolyline3D Altitude 16 5 points = .error (.precision2DTooBig 16) ∧
    CreatePolyline3D Altitude 15 15 points
      = .ok { coordinates := points, precision2D := 15, precision3D := 15, type3D := Altitude } ∧
    CreatePolyline3D Reserved1 5 5 points = .error (.type3DReserved 4) ∧
    CreatePolyline3D Reserved2 5 5 points = .error (.type3DReserved 5) ∧
    CreatePolyline3D Custom1 5 5 points
      = .ok { coordinates := points, precision2D := 5, precision3D := 5, type3D := Custom1 } ∧
    CreatePolyline3D Custom2 5 5 points
      = .ok { coordinates := points, precision2D := 5, precision3D := 5, type3D := Custom2 } ∧
    CreatePolyline3D 8 5 5 points = .error (.type3DTooBig 8) ∧
    CreatePolyline3D Absent 5 16 points = .error (.precision3DTooBig 16) := by
  have hiff := checkArgs_eq_none_iff type3D precision2D precision3D
  refine ⟨?_, ?_, ?_, rfl, rfl, rfl, rfl, rfl, rfl, rfl, rfl⟩
  · unfold CreatePolyline3D
    cases hc : checkArgs type3D precision2D precision3D with
    | none =>
      have := hiff.mp hc
      simp [this]
    | some err =>
      have : ¬ checkArgs type3D precision2D precision3D = none := by simp [hc]
      rw [hiff, not_not] at this
      simp [this]
  · unfold CreatePolyline3D
    cases hc : checkArgs type3D precision2D precision3D with
    | none =>
      have := hiff.mp hc
      simp [this]
    | some err =>
      have : ¬ checkArgs type3D precision2D precision3D = none := by simp [hc]
      rw [hiff, not_not] at this
      simp [this]
  · intro P hP
    unfold CreatePolyline3D at hP
    cases hc : checkArgs type3D precision2D precision3D with
    | none =>
      rw [hc] at hP
      simp only [Outcome.ok.injEq] at hP
      subst hP
      exact ⟨rfl, rfl, rfl, rfl⟩
    | some err =>
      rw [hc] at hP
      cases hP

/-- C9: `CreatePolyline` returns an error exactly when `precision > 15`; on
success the polyline has kind `Absent`, `precision3D` 0, `precision2D` equal to
`precision` and the given points, and the outcome is the one of
`CreatePolyline3D(Absent, precision, 0, points)`. -/
theorem CreatePolyline_error_iff {F : Type} (precision : Precision) (points : List (Point F)) :
    ((∃ e, CreatePolyline precision points = .error e) ↔ precision > 15) ∧
    (CreatePolyline precision points
        = .ok { coordinates := points, precision2D := precision, precision3D := 0,
                type3D := Absent } ↔ ¬ precision > 15) ∧
    (∀ P, CreatePolyline precision points = .ok P →
      P.type3D = Absent ∧ P.precision3D = 0 ∧ P.precision2D = precision ∧
      P.coordinates = points) ∧
    CreatePolyline precision points = CreatePolyline3D Absent precision 0 points := by
  have hiff := checkArgs_eq_none_iff Absent precision 0
  have hsimp : (precision > 15 ∨ (0 : Precision) > 15 ∨ Absent > 7 ∨ Absent = 4 ∨ Absent = 5)
      ↔ precision > 15 := by
    have h1 : ¬ (0 : Precision) > 15 := by decide
    have h2 : ¬ Absent > 7 := by decide
    have h3 : ¬ Absent = 4 := by decide
    have h4 : ¬ Absent = 5 := by decide
    simp [h1, h2, h3, h4]
  rw [hsimp] at hiff
  refine ⟨?_, ?_, ?_, rfl⟩
  · unfold CreatePolyline
    cases hc : checkArgs Absent precision 0 with
    | none =>
      have := hiff.mp hc
      simp [this]
    | some err =>
      have : ¬ checkArgs Absent precision 0 = none := by simp [hc]
      rw [hiff, not_not] at this
      simp [this]
  · unfold CreatePolyline
    cases hc : checkArgs Absent precision 0 with
    | none =>
      have := hiff.mp hc
      simp [this]
    | some err =>
      have : ¬ checkArgs Absent precision 0 = none := by simp [hc]
      rw [hiff, not_not] at this
      simp [this]
  · intro P hP
    unfold CreatePolyline at hP
    cases hc : checkArgs Absent precision 0 with
    | none =>
      rw [hc] at hP
      simp only [Outcome.ok.injEq] at hP
      subst hP
      exact ⟨rfl, rfl, rfl, rfl⟩
    | some err =>
      rw [hc] at hP
      cases hP

/-! ## Varint and zigzag -/

/-- C4: for every `uint64` value `v` and every string `rest`, `encodeUint(v)`
writes a non-empty symbol string `s` (appended to whatever the builder holds),
and `decodeValueAndAdvance(s ++ rest)` returns no error, the `int64` whose bit
pattern is `v`, and exactly `rest` as the tail. -/
theorem varint_round_trip (v : Nat) (hv : v < 2 ^ 64) (rest : List Byte) :
    ∃ s : List Byte, encodeUint v [] = .ok s ∧ s ≠ [] ∧ (∀ b, encodeUint v b = .ok (b ++ s)) ∧
      ∃ r : Int, decodeValueAndAdvance (s ++ rest) = .ok (r, rest) ∧ toU64 r = v ∧ r = toI64 v := by
  refine ⟨uintSymbols v, ?_, uintSymbols_ne_nil hv, encodeUint_eq hv, toI64 v,
    decode_uintSymbols hv rest, ?_, rfl⟩
  · have := encodeUint_eq hv []
    rwa [List.nil_append] at this
  · rw [toU64_toI64]
    exact Nat.mod_eq_of_lt hv

theorem varint_round_trip_witness :
    (18446744073709551615 : Nat) < 2 ^ 64 ∧
    ∃ s : List Byte, encodeUint 18446744073709551615 [] = .ok s ∧ s ≠ [] ∧
      (∀ b, encodeUint 18446744073709551615 b = .ok (b ++ s)) ∧
      ∃ r : Int, decodeValueAndAdvance (s ++ bytes "BF") = .ok (r, bytes "BF") ∧
        toU64 r = 18446744073709551615 ∧ r = toI64 18446744073709551615 :=
  ⟨by decide, varint_round_trip 18446744073709551615 (by decide) (bytes "BF")⟩

set_option maxRecDepth 100000 in
/-- C5 (what the code does): `toSigned` does not undo the zigzag transform of
`encodeScaledValue` outside `[-2^62, 2^62)`.  At `v = 2^62` it returns `-2^62`,
at `v = -2^62 - 1` it returns `2^62 - 1`; a third-dimension value of 5000 at
precision 15 (scaled integer `5 * 10^18`) is written by `Encode` and read back
by `Decode` as the scaled integer `-4223372036854775808`. -/
theorem toSigned_zigzag_out_of_range :
    toSigned (toI64 (zigzagBits (2 ^ 62))) = -2 ^ 62 ∧
    toSigned (toI64 (zigzagBits (-2 ^ 62 - 1))) = 2 ^ 62 - 1 ∧
    (Encode scaledOps ⟨[⟨0, 0, 5000000000000000000⟩], 5, 15, Altitude⟩).andThen (Decode scaledOps)
      = .ok ⟨[⟨0, 0, -4223372036854775808⟩], 5, 15, Altitude⟩ := by
  decide

/-! ## Totality of `Decode` -/

/-- C10 (what the code does): `Decode` panics on the empty string (the index
`polyline[0]`), on a byte above `z` or below `-` (the index into
`decodingTable`), both in the version position and later, and on a header with
a reserved kind (`MustCreatePolyline3D`); `decodeChar` itself panics on such
bytes.  A string holding only the version symbol decodes to an empty polyline. -/
theorem Decode_aborts {F : Type} (ops : FloatOps F) :
    Decode ops [] = .abort ∧
    Decode ops (bytes "~") = .abort ∧
    Decode ops (bytes " ") = .abort ∧
    Decode ops (bytes "BF~") = .abort ∧
    Decode ops (bytes "BlC") = .abort ∧
    decodeChar (byteOfChar '~') = .abort ∧
    decodeChar (byteOfChar ' ') = .abort ∧
    decodeHeader (F := F) [] = .abort ∧
    Decode ops (bytes "B")
      = .ok { coordinates := [], precision2D := 0, precision3D := 0, type3D := Absent } :=
  ⟨rfl, rfl, rfl, rfl, rfl, rfl, rfl, rfl, rfl⟩

/-! ## Header round trip -/

theorem valid_of_create {F : Type} {type3D : Type3D} {precision2D precision3D : Precision}
    {points : List (Point F)} {P : Polyline F}
    (hP : CreatePolyline3D type3D precision2D precision3D points = .ok P) :
    P = { coordinates := points, precision2D := precision2D, precision3D := precision3D,
          type3D := type3D } ∧
    checkArgs type3D precision2D precision3D = none ∧
    precision2D.val ≤ 15 ∧ precision3D.val ≤ 15 ∧ type3D.val ≤ 7 := by
  unfold CreatePolyline3D at hP
  cases hc : checkArgs type3D precision2D precision3D with
  | some err => rw [hc] at hP; cases hP
  | none =>
    rw [hc] at hP
    simp only [Outcome.ok.injEq] at hP
    have h := (checkArgs_eq_none_iff type3D precision2D precision3D).mp hc
    simp only [not_or, gt_iff_lt, not_lt] at h
    obtain ⟨h1, h2, h3, _, _⟩ := h
    exact ⟨hP.symm, rfl, h1, h2, h3⟩

/-- C6: for precisions in `[0,15]`, a kind in `{0,1,2,3,6,7}` and any points,
`CreatePolyline3D` succeeds with a polyline `P`, `Encode(P)` is the version
varint followed by the header varint followed by a body, and `decodeHeader` of
that string returns no error, a header with exactly the same `precision2D`,
`precision3D` and kind, and exactly that body. -/
theorem decodeHeader_Encode {F : Type} (ops : FloatOps F) (type3D : Type3D)
    (precision2D precision3D : Precision) (points : List (Point F))
    (h2 : precision2D ≤ 15) (h3 : precision3D ≤ 15)
    (hk : type3D = 0 ∨ type3D = 1 ∨ type3D = 2 ∨ type3D = 3 ∨ type3D = 6 ∨ type3D = 7) :
    ∃ (P : Polyline F) (version header body : List Byte) (H : Polyline F),
      CreatePolyline3D type3D precision2D precision3D points = .ok P ∧
      encodeUint FormatVersion [] = .ok version ∧
      encodeUint ((precision3D.val <<< 7) ||| (type3D.val <<< 4) ||| precision2D.val) []
        = .ok header ∧
      Encode ops P = .ok (version ++ header ++ body) ∧
      decodeHeader (version ++ header ++ body) = .ok (H, body) ∧
      H.precision2D = precision2D ∧ H.precision3D = precision3D ∧ H.type3D = type3D := by
  have hvalid : ¬ (precision2D > 15 ∨ precision3D > 15 ∨ type3D > 7 ∨ type3D = 4 ∨ type3D = 5) := by
    simp only [not_or, gt_iff_lt, not_lt]
    refine ⟨h2, h3, ?_, ?_, ?_⟩ <;> rcases hk with h | h | h | h | h | h <;> subst h <;> decide
  have hP : CreatePolyline3D type3D precision2D precision3D points
      = .ok { coordinates := points, precision2D := precision2D, precision3D := precision3D,
              type3D := type3D } := by
    unfold CreatePolyline3D
    rw [(checkArgs_eq_none_iff type3D precision2D precision3D).mpr hvalid]
  obtain ⟨_, _, v2, _, vk⟩ := valid_of_create hP
  refine ⟨_, bytes "B", uintSymbols (headerContent (F := F) ⟨points, precision2D, precision3D, type3D⟩),
    _, ⟨[], precision2D, precision3D, type3D⟩, hP, ?_, ?_, Encode_eq ops _, ?_, rfl, rfl, rfl⟩
  · rw [← version_symbols]
    have := encodeUint_eq (v := FormatVersion) (by decide) []
    rwa [List.nil_append] at this
  · have hlt := headerContent_lt (F := F) ⟨points, precision2D, precision3D, type3D⟩
    have := encodeUint_eq (v := headerContent (F := F) ⟨points, precision2D, precision3D, type3D⟩)
      (by omega) []
    rwa [List.nil_append] at this
  · exact decodeHeader_eq (G := F) ⟨points, precision2D, precision3D, type3D⟩ vk v2 _

theorem decodeHeader_Encode_witness :
    ∃ (P : Polyline Int) (version header body : List Byte) (H : Polyline Int),
      CreatePolyline3D Custom2 15 15 [⟨5010228, 869821, 10⟩] = .ok P ∧
      encodeUint FormatVersion [] = .ok version ∧
      encodeUint (((15 : Precision).val <<< 7) ||| (Custom2.val <<< 4) ||| (15 : Precision).val) []
        = .ok header ∧
      Encode scaledOps P = .ok (version ++ header ++ body) ∧
      decodeHeader (version ++ header ++ body) = .ok (H, body) ∧
      H.precision2D = 15 ∧ H.precision3D = 15 ∧ H.type3D = Custom2 :=
  decodeHeader_Encode scaledOps Custom2 15 15 [⟨5010228, 869821, 10⟩] (by decide) (by decide)
    (by decide)

/-- C7: for every polyline `P` returned by `CreatePolyline3D` (any accepted
kind and precisions, any points), `Encode(P)` returns a string and
`GetThirdDimension` of that string returns `P`'s kind and no error. -/
theorem GetThirdDimension_Encode {F : Type} (ops : FloatOps F) (type3D : Type3D)
    (precision2D precision3D : Precision) (points : List (Point F)) (P : Polyline F)
    (hP : CreatePolyline3D type3D precision2D precision3D points = .ok P) :
    ∃ s, Encode ops P = .ok s ∧ GetThirdDimension s = .ok type3D ∧ P.type3D = type3D := by
  obtain ⟨hPeq, _, v2, _, vk⟩ := valid_of_create hP
  subst hPeq
  refine ⟨_, Encode_eq ops _, ?_, rfl⟩
  unfold GetThirdDimension
  rw [decodeHeader_eq (F := Unit) (G := F) ⟨points, precision2D, precision3D, type3D⟩ vk v2 _]
  rfl

theorem GetThirdDimension_Encode_witness :
    CreatePolyline3D Custom1 5 0 [(⟨0, 0, 0⟩ : Point Int)] = .ok ⟨[⟨0, 0, 0⟩], 5, 0, Custom1⟩ ∧
    ∃ s, Encode scaledOps ⟨[⟨0, 0, 0⟩], 5, 0, Custom1⟩ = .ok s ∧
      GetThirdDimension s = .ok Custom1 ∧
      (⟨[⟨0, 0, 0⟩], 5, 0, Custom1⟩ : Polyline Int).type3D = Custom1 :=
  ⟨rfl, GetThirdDimension_Encode scaledOps Custom1 5 0 [⟨0, 0, 0⟩] ⟨[⟨0, 0, 0⟩], 5, 0, Custom1⟩ rfl⟩

/-! ## Wire format -/

theorem forall₂_scaledSymbols : ∀ l : List Int,
    List.Forall₂ (fun δ s => encodeScaledValue δ [] = .ok s) l (l.map scaledSymbols) := by
  intro l
  induction l with
  | nil => exact List.Forall₂.nil
  | cons v vs ih =>
    refine List.Forall₂.cons ?_ ih
    have := encodeScaledValue_eq v []
    rwa [List.nil_append] at this

theorem wireOrder_length (threeD : Bool) : ∀ ds : List (Int × Int × Int),
    (wireOrder threeD ds).length = (if threeD then 3 else 2) * ds.length := by
  intro ds
  induction ds with
  | nil => simp [wireOrder]
  | cons d ds ih =>
    rw [wireOrder_cons, List.length_append, ih]
    cases threeD <;> simp <;> omega

theorem wire2D_congr : ∀ (S S' : List (Int × Int × Int)) (prev prev' : Int × Int × Int),
    prev.1 = prev'.1 → prev.2.1 = prev'.2.1 →
    S.map (fun t => (t.1, t.2.1)) = S'.map (fun t => (t.1, t.2.1)) →
    wireOrder false (pointDeltas prev S) = wireOrder false (pointDeltas prev' S') := by
  intro S
  induction S with
  | nil =>
    intro S' prev prev' _ _ h
    cases S' with
    | nil => rfl
    | cons p ps => simp at h
  | cons p ps ih =>
    intro S' prev prev' h1 h2 h
    cases S' with
    | nil => simp at h
    | cons q qs =>
      simp only [List.map_cons, List.cons.injEq, Prod.mk.injEq] at h
      obtain ⟨⟨e1, e2⟩, et⟩ := h
      simp only [pointDeltas, wireOrder_cons, Bool.false_eq_true, if_false]
      rw [ih qs p q e1 e2 et, h1, h2, e1, e2]

/-- C3: for every polyline `P`, `Encode(P)` is `encodeUint(1)` (the single
symbol `B`), then `encodeUint((precision3D << 7) | (type3D << 4) | precision2D)`,
then, for each point in order, the `encodeScaledValue` symbols of the delta of
its scaled latitude, of its scaled longitude and, iff the kind is not `Absent`,
of its scaled third dimension, each delta against the previous point (0 before
the first), where the scaled value of a coordinate is
`int64(math.Round(coord * 10^precision))`.  The scaled values of the two test
polylines give the strings `BFoz5xJ67i1B1B7PzIhaxL7Y` and
`BlBoz5xJ67i1BU1B7PUzIhaUxL7YU`, and in exact arithmetic the three test inputs
of `encode_test.go` are encoded to the three expected strings. -/
theorem Encode_wire_format {F : Type} (ops : FloatOps F) (P : Polyline F) :
    (∃ (version header : List Byte) (body : List (List Byte)),
      encodeUint FormatVersion [] = .ok version ∧ version = bytes "B" ∧
      encodeUint ((P.precision3D.val <<< 7) ||| (P.type3D.val <<< 4) ||| P.precision2D.val) []
        = .ok header ∧
      List.Forall₂ (fun δ s => encodeScaledValue δ [] = .ok s)
        (wireOrder (is3D P) (deltasOf ops P)) body ∧
      (wireOrder (is3D P) (deltasOf ops P)).length
        = (if P.type3D = Absent then 2 else 3) * P.coordinates.length ∧
      Encode ops P = .ok (version ++ header ++ body.flatten)) ∧
    deltasOf ops P = pointDeltas (0, 0, 0) (P.coordinates.map fun pt =>
      (wrapI64 (ops.toInt64 (ops.round (ops.mul pt.Lat (ops.pow10 P.precision2D.val)))),
       wrapI64 (ops.toInt64 (ops.round (ops.mul pt.Lng (ops.pow10 P.precision2D.val)))),
       wrapI64 (ops.toInt64 (ops.round (ops.mul pt.ThirdDim (ops.pow10 P.precision3D.val)))))) ∧
    (P.precision2D = 5 → P.precision3D = 0 → P.type3D = Absent →
      (scaledPoints ops P).map (fun t => (t.1, t.2.1))
        = [(5010228, 869821), (5010201, 869567), (5010063, 869150), (5009878, 868752)] →
      Encode ops P = .ok (bytes "BFoz5xJ67i1B1B7PzIhaxL7Y")) ∧
    (P.precision2D = 5 → P.precision3D = 0 → P.type3D = Altitude →
      scaledPoints ops P
        = [(5010228, 869821, 10), (5010201, 869567, 20), (5010063, 869150, 30),
           (5009878, 868752, 40)] →
      Encode ops P = .ok (bytes "BlBoz5xJ67i1BU1B7PUzIhaUxL7YU")) ∧
    Encode fracOps ⟨toEncode2D, 5, 0, Absent⟩ = .ok (bytes "BFoz5xJ67i1B1B7PzIhaxL7Y") ∧
    Encode fracOps ⟨toEncode3D, 5, 0, Altitude⟩ = .ok (bytes "BlBoz5xJ67i1BU1B7PUzIhaUxL7YU") ∧
    Encode fracOps ⟨toEncodeLong, 5, 0, Absent⟩
      = .ok (bytes "BF05xgKuy2xCx9B7vUl0OhnR54EqSzpEl-HxjD3pBiGnyGi2CvwFsgD3nD4vB6e") := by
  refine ⟨⟨bytes "B", uintSymbols (headerContent P),
    (wireOrder (is3D P) (deltasOf ops P)).map scaledSymbols, ?_, rfl, ?_,
    forall₂_scaledSymbols _, ?_, ?_⟩, rfl, ?_, ?_, by decide, by decide, by decide⟩
  · rw [← version_symbols]
    have := encodeUint_eq (v := FormatVersion) (by decide) []
    rwa [List.nil_append] at this
  · have hlt := headerContent_lt P
    have := encodeUint_eq (v := headerContent P) (by omega) []
    rwa [List.nil_append] at this
  · rw [wireOrder_length, deltasOf, pointDeltas_length, scaledPoints, List.length_map]
    by_cases h : P.type3D = Absent <;> simp [is3D, h]
  · rw [Encode_eq, List.flatMap_def]
    rfl
  · intro h2 h3 hk hS
    have hb : is3D P = false := by simp [is3D, hk]
    have hh : headerContent P = 5 := by
      unfold headerContent
      rw [h2, h3, hk]
      rfl
    rw [Encode_eq, hb, hh, wire2D_congr (scaledPoints ops P)
      [(5010228, 869821, 0), (5010201, 869567, 0), (5010063, 869150, 0), (5009878, 868752, 0)]
      (0, 0, 0) (0, 0, 0) rfl rfl hS]
    decide
  · intro h2 h3 hk hS
    have hb : is3D P = true := by rw [is3D, hk]; decide
    have hh : headerContent P = 37 := by
      unfold headerContent
      rw [h2, h3, hk]
      rfl
    rw [Encode_eq, hb, hh, hS]
    decide

set_option maxRecDepth 100000 in
theorem Encode_wire_format_witness :
    (scaledPoints fracOps ⟨toEncode2D, 5, 0, Absent⟩).map (fun t => (t.1, t.2.1))
      = [(5010228, 869821), (5010201, 869567), (5010063, 869150), (5009878, 868752)] ∧
    Encode fracOps ⟨toEncode2D, 5, 0, Absent⟩ = .ok (bytes "BFoz5xJ67i1B1B7PzIhaxL7Y") ∧
    scaledPoints fracOps ⟨toEncode3D, 5, 0, Altitude⟩
      = [(5010228, 869821, 10), (5010201, 869567, 20), (5010063, 869150, 30),
         (5009878, 868752, 40)] ∧
    Encode fracOps ⟨toEncode3D, 5, 0, Altitude⟩ = .ok (bytes "BlBoz5xJ67i1BU1B7PUzIhaUxL7YU") :=
  ⟨by decide, (Encode_wire_format fracOps _).2.2.1 rfl rfl rfl (by decide),
   by decide, (Encode_wire_format fracOps _).2.2.2.1 rfl rfl rfl (by decide)⟩

/-! ## Integer-level round trip -/

/-- C1: for every polyline `P` accepted by `CreatePolyline3D` whose scaled
integers and consecutive differences lie in `[-2^62, 2^62)`, `Encode(P)` returns
a string, `Decode` of it returns no error and exactly as many points as `P`
has; the signed integers read from the body by successive
`decodeValueAndAdvance` and `toSigned` (2 per point for kind `Absent`, 3 per
point otherwise) are exactly the deltas `Encode` wrote, the decoded points are
accumulated from exactly these deltas, and the running sums of the deltas are
`P`'s scaled integers `int64(math.Round(coord * 10^precision))`. -/
theorem Decode_Encode_integers {F : Type} (ops : FloatOps F) (type3D : Type3D)
    (precision2D precision3D : Precision) (points : List (Point F)) (P : Polyline F)
    (hP : CreatePolyline3D type3D precision2D precision3D points = .ok P)
    (hR : RangeOK (is3D P) (0, 0, 0) (scaledPoints ops P)) :
    ∃ (s : List Byte) (header : Polyline F) (body : List Byte) (Q : Polyline F),
      Encode ops P = .ok s ∧
      decodeHeader s = .ok (header, body) ∧
      signedValues body.length body = .ok (wireOrder (is3D P) (deltasOf ops P)) ∧
      (wireOrder (is3D P) (deltasOf ops P)).length
        = (if type3D = Absent then 2 else 3) * points.length ∧
      Decode ops s = .ok Q ∧
      Q.coordinates.length = points.length ∧
      Q.type3D = type3D ∧ Q.precision2D = precision2D ∧
      Q.coordinates = accumulate ops (ops.pow10 precision2D.val) (ops.pow10 precision3D.val)
        (is3D P) (deltasOf ops P) ops.zero ops.zero ops.zero ∧
      runningSums 0 ((deltasOf ops P).map (fun d => d.1))
        = (scaledPoints ops P).map (fun p => p.1) ∧
      runningSums 0 ((deltasOf ops P).map (fun d => d.2.1))
        = (scaledPoints ops P).map (fun p => p.2.1) ∧
      (type3D ≠ Absent →
        runningSums 0 ((deltasOf ops P).map (fun d => d.2.2))
          = (scaledPoints ops P).map (fun p => p.2.2)) ∧
      scaledPoints ops P = points.map (fun pt =>
        (wrapI64 (ops.toInt64 (ops.round (ops.mul pt.Lat (ops.pow10 precision2D.val)))),
         wrapI64 (ops.toInt64 (ops.round (ops.mul pt.Lng (ops.pow10 precision2D.val)))),
         wrapI64 (ops.toInt64 (ops.round (ops.mul pt.ThirdDim (ops.pow10 precision3D.val)))))) := by
  obtain ⟨hPeq, hcheck, v2, v3, vk⟩ := valid_of_create hP
  have hfit : DeltasFit (is3D P) (deltasOf ops P) := deltasFit_of_rangeOK _ _ _ hR
  obtain ⟨r1, r2, r3⟩ := runningSums_lat (scaledPoints ops P) (0, 0, 0) (is3D P) hR
  have hlen : (deltasOf ops P).length = points.length := by
    rw [deltasOf, pointDeltas_length, scaledPoints, List.length_map, hPeq]
  have hk : P.type3D = type3D := by rw [hPeq]
  have hp2 : P.precision2D = precision2D := by rw [hPeq]
  have hp3 : P.precision3D = precision3D := by rw [hPeq]
  have hhdr : decodeHeader (F := F) (bytes "B" ++ uintSymbols (headerContent P) ++
      (wireOrder (is3D P) (deltasOf ops P)).flatMap scaledSymbols)
      = .ok (⟨[], precision2D, precision3D, type3D⟩,
          (wireOrder (is3D P) (deltasOf ops P)).flatMap scaledSymbols) := by
    rw [decodeHeader_eq P (by rw [hk]; exact vk) (by rw [hp2]; exact v2), hk, hp2, hp3]
  have hloop := decodeLoop_eq ops (⟨[], precision2D, precision3D, type3D⟩ : Polyline F)
    (deltasOf ops P) ((wireOrder (is3D P) (deltasOf ops P)).flatMap scaledSymbols).length
    ops.zero ops.zero ops.zero []
  have his : is3D (⟨[], precision2D, precision3D, type3D⟩ : Polyline F) = is3D P := by
    simp [is3D, hk]
  rw [his] at hloop
  have hloop' := hloop (wire_length_ge _ _) hfit
  refine ⟨bytes "B" ++ uintSymbols (headerContent P) ++
      (wireOrder (is3D P) (deltasOf ops P)).flatMap scaledSymbols, _, _, ⟨accumulate ops (ops.pow10 precision2D.val) (ops.pow10 precision3D.val)
      (is3D P) (deltasOf ops P) ops.zero ops.zero ops.zero, precision2D,
      if type3D ≠ Absent then precision3D else 0, type3D⟩,
    Encode_eq ops P, hhdr, ?_, ?_, ?_, ?_, rfl, rfl, rfl, r1, r2, ?_, by rw [hPeq]; rfl⟩
  · exact signedValues_eq _ _ (wireOrder_length_ge _ _) (wireOrder_fits _ _ hfit)
  · rw [wireOrder_length, hlen]
    by_cases h : type3D = Absent <;> simp [is3D, hk, h]
  · unfold Decode
    rw [hhdr]
    simp only [andThen_ok]
    rw [hloop']
    simp only [andThen_ok, List.nil_append]
    by_cases h : type3D ≠ Absent
    · rw [if_pos h, if_pos h]
      unfold MustCreatePolyline3D CreatePolyline3D
      rw [hcheck]
    · rw [if_neg h, if_neg h]
      have hA : type3D = Absent := by simpa using h
      have hc2 : checkArgs Absent precision2D 0 = none := by
        rw [checkArgs_eq_none_iff]
        have h1 : ¬ (0 : Precision) > 15 := by decide
        have h2 : ¬ Absent > 7 := by decide
        have h3 : ¬ Absent = 4 := by decide
        have h4 : ¬ Absent = 5 := by decide
        simp only [not_or, gt_iff_lt, not_lt]
        exact ⟨v2, by decide, by decide, by decide, by decide⟩
      unfold MustCreatePolyline CreatePolyline
      rw [hc2, hA]
  · show (accumulate _ _ _ _ _ _ _ _).length = _
    rw [accumulate_length, hlen]
  · intro h
    exact r3 (by simp [is3D, hk, h])

set_option maxRecDepth 100000 in
theorem Decode_Encode_integers_witness :
    (∃ (s : List Byte) (header : Polyline Frac) (body : List Byte) (Q : Polyline Frac),
      Encode fracOps ⟨roundTripExample, 5, 2, Altitude⟩ = .ok s ∧
      decodeHeader s = .ok (header, body) ∧
      signedValues body.length body = .ok [5010228, 869821, 1013, -27, -254, -3014] ∧
      [(5010228 : Int), 869821, 1013, -27, -254, -3014].length
        = (if Altitude = Absent then 2 else 3) * 2 ∧
      Decode fracOps s = .ok Q ∧
      Q.coordinates.length = 2 ∧
      Q.type3D = Altitude ∧ Q.precision2D = 5 ∧
      Q.coordinates = [⟨⟨5010228, 100000⟩, ⟨869821, 100000⟩, ⟨1013, 100⟩⟩,
                       ⟨⟨5010201, 100000⟩, ⟨869567, 100000⟩, ⟨-2001, 100⟩⟩] ∧
      runningSums 0 [5010228, -27] = [5010228, 5010201] ∧
      runningSums 0 [869821, -254] = [869821, 869567] ∧
      (Altitude ≠ Absent → runningSums 0 [1013, -3014] = [1013, -2001]) ∧
      [((5010228 : Int), (869821 : Int), (1013 : Int)), (5010201, 869567, -2001)]
        = roundTripExample.map (fun pt =>
          (wrapI64 (fracOps.toInt64 (fracOps.round (fracOps.mul pt.Lat (fracOps.pow10 5)))),
           wrapI64 (fracOps.toInt64 (fracOps.round (fracOps.mul pt.Lng (fracOps.pow10 5)))),
           wrapI64 (fracOps.toInt64 (fracOps.round (fracOps.mul pt.ThirdDim (fracOps.pow10 2))))))) ∧
    Encode fracOps ⟨roundTripExample, 5, 2, Altitude⟩ = .ok (bytes "BlJoz5xJ67i1Bq_B1B7Pr8F") ∧
    Decode fracOps (bytes "BlJoz5xJ67i1Bq_B1B7Pr8F")
      = .ok ⟨[⟨⟨5010228, 100000⟩, ⟨869821, 100000⟩, ⟨1013, 100⟩⟩,
              ⟨⟨5010201, 100000⟩, ⟨869567, 100000⟩, ⟨-2001, 100⟩⟩], 5, 2, Altitude⟩ :=
  ⟨Decode_Encode_integers fracOps Altitude 5 2 roundTripExample
    ⟨roundTripExample, 5, 2, Altitude⟩ rfl (by decide), by decide, by decide⟩

/-! ## Symbols and the decoding table -/

set_option maxRecDepth 100000 in
theorem decodeChar_cases : ∀ c : Byte, decodeChar c =
    if c.val < 45 ∨ 122 < c.val then .abort
    else if c ∈ encodingTable then .ok (decodingTable.getD (c.val - 45) 0)
    else .error .invalidEncoding := by
  decide

set_option maxRecDepth 100000 in
theorem decodeChar_symbol : ∀ c : Byte, c ∈ encodingTable →
    decodeChar c = .ok (decodingTable.getD (c.val - 45) 0) ∧
    0 ≤ decodingTable.getD (c.val - 45) 0 ∧ decodingTable.getD (c.val - 45) 0 ≤ 63 ∧
    (c ≠ 66 → toU64 (decodingTable.getD (c.val - 45) 0) ≠ FormatVersion) := by
  decide

theorem decodeChar_not_outOfFuel (c : Byte) : decodeChar c ≠ .outOfFuel := by
  rw [decodeChar_cases]
  split
  · simp
  · split <;> simp

theorem decodeChar_error (c : Byte) (e : Err) (h : decodeChar c = .error e) :
    e = .invalidEncoding := by
  rw [decodeChar_cases] at h
  split at h
  · cases h
  · split at h
    · cases h
    · simp only [Outcome.error.injEq] at h
      exact h.symm

/-- C18: `decodeChar(encodingTable[i])` returns `(i, nil)` for every `i` in
`0..63`; `decodingTable` has exactly 78 entries, indexed by the bytes 45..122,
and `decodeChar` returns an error for every byte in 45..122 that is not one of
the 64 alphabet characters. -/
theorem decodingTable_inverse :
    (∀ i : Fin 64, ∃ c, encodingTable[i.val]? = some c ∧ decodeChar c = .ok (i.val : Int)) ∧
    encodingTable.length = 64 ∧ decodingTable.length = 78 ∧
    (∀ c : Byte, 45 ≤ c.val → c.val ≤ 122 → (decodingTable[c.val - 45]?).isSome = true) ∧
    (∀ c : Byte, 45 ≤ c.val → c.val ≤ 122 → c ∉ encodingTable →
      decodeChar c = .error .invalidEncoding) := by
  refine ⟨fun i => ⟨symbolAt i.val, table_inverse i⟩, rfl, rfl, ?_, ?_⟩
  · intro c h1 h2
    have : c.val - 45 < decodingTable.length := by
      show c.val - 45 < 78
      omega
    simp [List.getElem?_eq_getElem this]
  · intro c h1 h2 h3
    rw [decodeChar_cases, if_neg (by omega), if_neg h3]

/-- C12 (what the code does): `decodeChar` panics on every byte below `-` (45)
and on every byte above `z` (122), and returns the error "invalid encoding"
only for the bytes between them that are not in the alphabet; `Decode` panics
on strings holding a byte outside 45..122 where it is read (`BF~`, `BF oz`,
`B~`), and returns the error for `BF.`. -/
theorem decodeChar_outside_alphabet {F : Type} (ops : FloatOps F) :
    (∀ c : Byte, c.val < 45 ∨ 122 < c.val → decodeChar c = .abort) ∧
    (∀ c : Byte, 45 ≤ c.val → c.val ≤ 122 → c ∉ encodingTable →
      decodeChar c = .error .invalidEncoding) ∧
    decodeChar (byteOfChar '~') = .abort ∧
    decodeChar (byteOfChar ',') = .abort ∧
    Decode ops (bytes "BF~") = .abort ∧
    Decode ops (bytes "BF oz") = .abort ∧
    Decode ops (bytes "B~") = .abort ∧
    Decode ops (bytes "BF.") = .error .invalidEncoding := by
  refine ⟨?_, ?_, rfl, rfl, rfl, rfl, rfl, rfl⟩
  · intro c h
    rw [decodeChar_cases, if_pos h]
  · intro c h1 h2 h3
    rw [decodeChar_cases, if_neg (by omega), if_neg h3]

/-! ## Outcomes of `decodeValueAndAdvance` -/

theorem decodeValueLoop_outcome : ∀ (l : List Byte) (r : Int) (s : Fin 256),
    (∃ v tail pre, decodeValueLoop l r s = .ok (v, tail) ∧ l = pre ++ tail ∧ (l ≠ [] → pre ≠ [])) ∨
    decodeValueLoop l r s = .error .invalidEncoding ∨
    decodeValueLoop l r s = .abort := by
  intro l
  induction l with
  | nil => intro r s; exact Or.inl ⟨r, [], [], rfl, rfl, fun h => absurd rfl h⟩
  | cons c cs ih =>
    intro r s
    rw [decodeValueLoop]
    cases hc : decodeChar c with
    | ok value =>
      simp only [andThen_ok]
      split
      · exact Or.inl ⟨_, cs, [c], rfl, rfl, fun _ => by simp⟩
      · rcases ih (or64 r (shl64 (and64 value 0x1F) s.val)) (s + 5) with
          ⟨v, tail, pre, h1, h2, _⟩ | h | h
        · exact Or.inl ⟨v, tail, c :: pre, h1, by rw [h2]; rfl, fun _ => by simp⟩
        · exact Or.inr (Or.inl h)
        · exact Or.inr (Or.inr h)
    | error e =>
      have := decodeChar_error c e hc
      subst this
      exact Or.inr (Or.inl rfl)
    | abort => exact Or.inr (Or.inr rfl)
    | outOfFuel => exact absurd hc (decodeChar_not_outOfFuel c)

theorem decodeValueAndAdvance_outcome (l : List Byte) :
    (∃ v tail pre, decodeValueAndAdvance l = .ok (v, tail) ∧ l = pre ++ tail ∧
      (l ≠ [] → pre ≠ [])) ∨
    decodeValueAndAdvance l = .error .invalidEncoding ∨
    decodeValueAndAdvance l = .abort :=
  decodeValueLoop_outcome l 0 0

theorem decodeValueLoop_symbols : ∀ (l : List Byte) (r : Int) (s : Fin 256),
    (∀ c ∈ l, IsSymbol c) →
    ∃ v tail pre, decodeValueLoop l r s = .ok (v, tail) ∧ l = pre ++ tail ∧
      ((∀ c ∈ l, Continues c) → tail = []) := by
  intro l
  induction l with
  | nil => intro r s _; exact ⟨r, [], [], rfl, rfl, fun _ => rfl⟩
  | cons c cs ih =>
    intro r s hl
    have hc := (decodeChar_symbol c (hl c (List.mem_cons_self _ _))).1
    rw [decodeValueLoop, hc]
    simp only [andThen_ok]
    split
    · rename_i hclr
      refine ⟨_, cs, [c], rfl, rfl, ?_⟩
      intro hall
      obtain ⟨value, hv, hbit⟩ := hall c (List.mem_cons_self _ _)
      rw [hc] at hv
      simp only [Outcome.ok.injEq] at hv
      rw [← hv] at hbit
      exact absurd hclr hbit
    · obtain ⟨v, tail, pre, h1, h2, h3⟩ := ih (or64 r (shl64 (and64
        (decodingTable.getD (c.val - 45) 0) 0x1F) s.val)) (s + 5)
        (fun x hx => hl x (List.mem_cons_of_mem _ hx))
      exact ⟨v, tail, c :: pre, h1, by rw [h2]; rfl,
        fun hall => h3 (fun x hx => hall x (List.mem_cons_of_mem _ hx))⟩

/-! ## One iteration of the point loop of `Decode` -/

theorem andThen_error {α β : Type} (e : Err) (f : α → Outcome β) :
    (Outcome.error e : Outcome α).andThen f = .error e := rfl

theorem andThen_abort {α β : Type} (f : α → Outcome β) :
    (Outcome.abort : Outcome α).andThen f = .abort := rfl

theorem andThen_eq_ok {α β : Type} {x : Outcome α} {f : α → Outcome β} {b : β}
    (h : x.andThen f = .ok b) : ∃ a, x = .ok a ∧ f a = .ok b := by
  cases x with
  | ok a => exact ⟨a, rfl, h⟩
  | error e => cases h
  | abort => cases h
  | outOfFuel => cases h

theorem decodeValueAndAdvance_fails {l : List Byte}
    (h : decodeValueAndAdvance l = .error .invalidEncoding ∨ decodeValueAndAdvance l = .abort) :
    ¬ ∀ c ∈ l, IsSymbol c := by
  intro hall
  obtain ⟨v, tail, pre, h1, _, _⟩ := decodeValueLoop_symbols l 0 0 hall
  have h1' : decodeValueAndAdvance l = .ok (v, tail) := h1
  rcases h with h | h <;> rw [h1'] at h <;> cases h

theorem decodeLoop_step {F : Type} (ops : FloatOps F) (header : Polyline F) (c : Byte)
    (cs : List Byte) (lat lng z : F) (result : List (Point F)) :
    (∃ (t : List Byte) (pt : Point F) (lat' lng' z' : F),
      t.length < (c :: cs).length ∧ (∀ x ∈ t, x ∈ c :: cs) ∧
      ∀ fuel, decodeLoop ops header (fuel + 1) (c :: cs) lat lng z result
        = decodeLoop ops header fuel t lat' lng' z' (result ++ [pt])) ∨
    ((∀ fuel, decodeLoop ops header (fuel + 1) (c :: cs) lat lng z result
        = .error .invalidEncoding) ∧ ¬ ∀ x ∈ c :: cs, IsSymbol x) ∨
    ((∀ fuel, decodeLoop ops header (fuel + 1) (c :: cs) lat lng z result = .abort) ∧
      ¬ ∀ x ∈ c :: cs, IsSymbol x) := by
  have sub : ∀ {l pre t : List Byte}, l = pre ++ t → ∀ x ∈ t, x ∈ l := by
    intro l pre t h x hx
    rw [h]
    exact List.mem_append_right _ hx
  have notsym : ∀ {l t : List Byte}, (∀ x ∈ t, x ∈ l) → (¬ ∀ x ∈ t, IsSymbol x) →
      ¬ ∀ x ∈ l, IsSymbol x := fun hs hn hall => hn (fun x hx => hall x (hs x hx))
  rcases decodeValueAndAdvance_outcome (c :: cs) with ⟨v1, t1, p1, e1, s1, n1⟩ | e1 | e1
  · have hp1 : p1 ≠ [] := n1 (by simp)
    have len1 : t1.length < (c :: cs).length := by
      rw [s1, List.length_append]
      have := List.length_pos.mpr hp1
      omega
    rcases decodeValueAndAdvance_outcome t1 with ⟨v2, t2, p2, e2, s2, _⟩ | e2 | e2
    · have len2 : t2.length ≤ t1.length := by
        rw [s2, List.length_append]; omega
      by_cases h3 : header.type3D ≠ Absent
      · rcases decodeValueAndAdvance_outcome t2 with ⟨v3, t3, p3, e3, s3, _⟩ | e3 | e3
        · have len3 : t3.length ≤ t2.length := by
            rw [s3, List.length_append]; omega
          refine Or.inl ⟨t3,
            ⟨ops.add lat (ops.div (ops.ofInt64 (toSigned v1)) (ops.pow10 header.precision2D.val)),
             ops.add lng (ops.div (ops.ofInt64 (toSigned v2)) (ops.pow10 header.precision2D.val)),
             ops.add z (ops.div (ops.ofInt64 (toSigned v3)) (ops.pow10 header.precision3D.val))⟩,
            ops.add lat (ops.div (ops.ofInt64 (toSigned v1)) (ops.pow10 header.precision2D.val)),
            ops.add lng (ops.div (ops.ofInt64 (toSigned v2)) (ops.pow10 header.precision2D.val)),
            ops.add z (ops.div (ops.ofInt64 (toSigned v3)) (ops.pow10 header.precision3D.val)),
            by omega, fun x hx => sub s1 x (sub s2 x (sub s3 x hx)), ?_⟩
          intro fuel
          rw [decodeLoop, e1]
          simp only [andThen_ok, e2, e3, if_pos h3]
        · refine Or.inr (Or.inl ⟨?_, notsym (fun x hx => sub s1 x (sub s2 x hx))
            (decodeValueAndAdvance_fails (Or.inl e3))⟩)
          intro fuel
          rw [decodeLoop, e1]
          simp only [andThen_ok, e2, e3, if_pos h3, andThen_error]
        · refine Or.inr (Or.inr ⟨?_, notsym (fun x hx => sub s1 x (sub s2 x hx))
            (decodeValueAndAdvance_fails (Or.inr e3))⟩)
          intro fuel
          rw [decodeLoop, e1]
          simp only [andThen_ok, e2, e3, if_pos h3, andThen_abort]
      · refine Or.inl ⟨t2,
          ⟨ops.add lat (ops.div (ops.ofInt64 (toSigned v1)) (ops.pow10 header.precision2D.val)),
           ops.add lng (ops.div (ops.ofInt64 (toSigned v2)) (ops.pow10 header.precision2D.val)),
           ops.zero⟩,
          ops.add lat (ops.div (ops.ofInt64 (toSigned v1)) (ops.pow10 header.precision2D.val)),
          ops.add lng (ops.div (ops.ofInt64 (toSigned v2)) (ops.pow10 header.precision2D.val)),
          z, by omega, fun x hx => sub s1 x (sub s2 x hx), ?_⟩
        intro fuel
        rw [decodeLoop, e1]
        simp only [andThen_ok, e2, if_neg h3]
    · refine Or.inr (Or.inl ⟨?_, notsym (sub s1) (decodeValueAndAdvance_fails (Or.inl e2))⟩)
      intro fuel
      rw [decodeLoop, e1]
      simp only [andThen_ok, e2, andThen_error]
    · refine Or.inr (Or.inr ⟨?_, notsym (sub s1) (decodeValueAndAdvance_fails (Or.inr e2))⟩)
      intro fuel
      rw [decodeLoop, e1]
      simp only [andThen_ok, e2, andThen_abort]
  · refine Or.inr (Or.inl ⟨?_, decodeValueAndAdvance_fails (Or.inl e1)⟩)
    intro fuel
    rw [decodeLoop, e1, andThen_error]
  · refine Or.inr (Or.inr ⟨?_, decodeValueAndAdvance_fails (Or.inr e1)⟩)
    intro fuel
    rw [decodeLoop, e1, andThen_abort]

theorem decodeLoop_nil {F : Type} (ops : FloatOps F) (header : Polyline F) (fuel : Nat)
    (lat lng z : F) (result : List (Point F)) :
    decodeLoop ops header fuel [] lat lng z result = .ok result := by
  cases fuel <;> rfl

theorem decodeLoop_total {F : Type} (ops : FloatOps F) (header : Polyline F) :
    ∀ (fuel : Nat) (line : List Byte) (lat lng z : F) (result : List (Point F)),
      line.length ≤ fuel →
      (decodeLoop ops header fuel line lat lng z result
        = decodeLoop ops header line.length line lat lng z result) ∧
      ((∃ r, decodeLoop ops header fuel line lat lng z result = .ok r ∧
          r.length ≤ result.length + line.length) ∨
        (decodeLoop ops header fuel line lat lng z result = .error .invalidEncoding ∧
          ¬ ∀ x ∈ line, IsSymbol x) ∨
        (decodeLoop ops header fuel line lat lng z result = .abort ∧
          ¬ ∀ x ∈ line, IsSymbol x)) := by
  intro fuel
  induction fuel using Nat.strong_induction_on with
  | _ fuel ih =>
    intro line lat lng z result hlen
    cases line with
    | nil =>
      rw [decodeLoop_nil, decodeLoop_nil]
      exact ⟨rfl, Or.inl ⟨result, rfl, by simp⟩⟩
    | cons c cs =>
      obtain ⟨f, rfl⟩ : ∃ f, fuel = f + 1 := ⟨fuel - 1, by simp at hlen; omega⟩
      have hl : (c :: cs).length = cs.length + 1 := rfl
      rcases decodeLoop_step ops header c cs lat lng z result with
        ⟨t, pt, lat', lng', z', tlen, tsub, hstep⟩ | ⟨herr, hns⟩ | ⟨hab, hns⟩
      · have tf : t.length ≤ f := by rw [hl] at tlen; simp at hlen; omega
        have tc : t.length ≤ cs.length := by rw [hl] at tlen; omega
        obtain ⟨i1, i2⟩ := ih f (by omega) t lat' lng' z' (result ++ [pt]) tf
        obtain ⟨j1, _⟩ := ih cs.length (by simp at hlen; omega) t lat' lng' z' (result ++ [pt]) tc
        refine ⟨?_, ?_⟩
        · rw [hstep f, hl, hstep cs.length, i1, j1]
        · rw [hstep f]
          rcases i2 with ⟨r, hr, hrl⟩ | ⟨he, hn⟩ | ⟨ha, hn⟩
          · refine Or.inl ⟨r, hr, ?_⟩
            rw [List.length_append, List.length_singleton] at hrl
            omega
          · exact Or.inr (Or.inl ⟨he, fun hall => hn (fun x hx => hall x (tsub x hx))⟩)
          · exact Or.inr (Or.inr ⟨ha, fun hall => hn (fun x hx => hall x (tsub x hx))⟩)
      · refine ⟨?_, Or.inr (Or.inl ⟨herr f, hns⟩)⟩
        rw [herr f, hl, herr cs.length]
      · refine ⟨?_, Or.inr (Or.inr ⟨hab f, hns⟩)⟩
        rw [hab f, hl, hab cs.length]

/-! ## The point loop on an arbitrary sequence of varints -/

theorem flat_length_ge : ∀ vs : List Int, vs.length ≤ (vs.flatMap scaledSymbols).length := by
  intro vs
  induction vs with
  | nil => simp
  | cons v vs ih =>
    have h1 : 0 < (scaledSymbols v).length := List.length_pos.mpr (scaledSymbols_ne_nil _)
    simp only [List.flatMap_cons, List.length_append, List.length_cons]
    omega

theorem decode_scaledSymbols_any (value : Int) (rest : List Byte) :
    decodeValueAndAdvance (scaledSymbols value ++ rest) = .ok (toI64 (zigzagBits value), rest) :=
  decode_uintSymbols (zigzagBits_lt value) rest

theorem decodeValueAndAdvance_nil : decodeValueAndAdvance [] = .ok (0, []) := rfl

theorem toSigned_zero : toSigned 0 = 0 := by decide

theorem decodeLoop_flat {F : Type} (ops : FloatOps F) (header : Polyline F) :
    ∀ (n : Nat) (vs : List Int) (fuel : Nat) (lat lng z : F) (result : List (Point F)),
      vs.length ≤ n → vs.length ≤ fuel →
      decodeLoop ops header fuel (vs.flatMap scaledSymbols) lat lng z result
        = .ok (result ++ accumulate ops (ops.pow10 header.precision2D.val)
            (ops.pow10 header.precision3D.val) (is3D header)
            (groupPoints (is3D header) (vs.map readBack)) lat lng z) := by
  intro n
  induction n using Nat.strong_induction_on with
  | _ n ih =>
    intro vs fuel lat lng z result hn hfuel
    cases vs with
    | nil =>
      show decodeLoop ops header fuel [] lat lng z result = _
      rw [decodeLoop_nil]
      cases h : is3D header <;> simp [groupPoints, group2, group3, accumulate]
    | cons a rest =>
      obtain ⟨fuel, rfl⟩ : ∃ f, fuel = f + 1 := ⟨fuel - 1, by simp at hfuel; omega⟩
      obtain ⟨c, cs, hcs⟩ := List.exists_cons_of_ne_nil (scaledSymbols_ne_nil a)
      rw [List.flatMap_cons, hcs, List.cons_append, decodeLoop, ← List.cons_append, ← hcs,
        decode_scaledSymbols_any]
      simp only [andThen_ok]
      by_cases h3 : header.type3D ≠ Absent
      · have hb : is3D header = true := by simp [is3D, h3]
        rw [hb]
        cases rest with
        | nil =>
          simp only [List.flatMap_nil, decodeValueAndAdvance_nil, andThen_ok, if_pos h3,
            toSigned_zero, decodeLoop_nil]
          simp [groupPoints, group3, accumulate, readBack]
        | cons b rest =>
          rw [List.flatMap_cons, decode_scaledSymbols_any]
          simp only [andThen_ok, if_pos h3]
          cases rest with
          | nil =>
            simp only [List.flatMap_nil, decodeValueAndAdvance_nil, andThen_ok,
              toSigned_zero, decodeLoop_nil]
            simp [groupPoints, group3, accumulate, readBack]
          | cons c3 rest =>
            rw [List.flatMap_cons, decode_scaledSymbols_any]
            simp only [andThen_ok]
            have hlen : rest.length < n := by simp at hn; omega
            rw [ih rest.length hlen rest fuel _ _ _ _ (le_refl _) (by simp at hfuel; omega), hb]
            simp [groupPoints, group3, accumulate, readBack]
      · have hb : is3D header = false := by simp [is3D, h3]
        rw [hb]
        cases rest with
        | nil =>
          simp only [List.flatMap_nil, decodeValueAndAdvance_nil, andThen_ok, if_neg h3,
            toSigned_zero, decodeLoop_nil]
          simp [groupPoints, group2, accumulate, readBack]
        | cons b rest =>
          rw [List.flatMap_cons, decode_scaledSymbols_any]
          simp only [andThen_ok, if_neg h3]
          have hlen : rest.length < n := by simp at hn; omega
          rw [ih rest.length hlen rest fuel _ _ _ _ (le_refl _) (by simp at hfuel; omega), hb]
          simp [groupPoints, group2, accumulate, readBack]

theorem map_readBack_of_fits : ∀ vs : List Int, (∀ v ∈ vs, Fits v) → vs.map readBack = vs := by
  intro vs
  induction vs with
  | nil => intro _; rfl
  | cons v vs ih =>
    intro h
    have hv := h v (List.mem_cons_self _ _)
    rw [List.map_cons, ih (fun x hx => h x (List.mem_cons_of_mem _ hx))]
    show toSigned (toI64 (zigzagBits v)) :: vs = v :: vs
    rw [toSigned_zigzag hv.1 hv.2]

theorem Decode_of_flat {F : Type} (ops : FloatOps F) {type3D : Type3D}
    {precision2D precision3D : Precision} {points : List (Point F)} {P : Polyline F}
    (hP : CreatePolyline3D type3D precision2D precision3D points = .ok P) (vs : List Int) :
    Decode ops (bytes "B" ++ uintSymbols (headerContent P) ++ vs.flatMap scaledSymbols)
      = .ok ⟨accumulate ops (ops.pow10 precision2D.val) (ops.pow10 precision3D.val) (is3D P)
          (groupPoints (is3D P) (vs.map readBack)) ops.zero ops.zero ops.zero,
        precision2D, if type3D ≠ Absent then precision3D else 0, type3D⟩ := by
  obtain ⟨hPeq, hcheck, v2, v3, vk⟩ := valid_of_create hP
  have hk : P.type3D = type3D := by rw [hPeq]
  have hp2 : P.precision2D = precision2D := by rw [hPeq]
  have hp3 : P.precision3D = precision3D := by rw [hPeq]
  have hloop := decodeLoop_flat ops (⟨[], precision2D, precision3D, type3D⟩ : Polyline F)
    vs.length vs (vs.flatMap scaledSymbols).length ops.zero ops.zero ops.zero [] (le_refl _)
    (flat_length_ge vs)
  have his : is3D (⟨[], precision2D, precision3D, type3D⟩ : Polyline F) = is3D P := by
    simp [is3D, hk]
  rw [his] at hloop
  unfold Decode
  rw [decodeHeader_eq P (by rw [hk]; exact vk) (by rw [hp2]; exact v2), hk, hp2, hp3]
  simp only [andThen_ok]
  rw [hloop]
  simp only [andThen_ok, List.nil_append]
  by_cases h : type3D ≠ Absent
  · rw [if_pos h, if_pos h]
    unfold MustCreatePolyline3D CreatePolyline3D
    rw [hcheck]
  · rw [if_neg h, if_neg h]
    have hA : type3D = Absent := by simpa using h
    have hc2 : checkArgs Absent precision2D 0 = none := by
      rw [checkArgs_eq_none_iff]
      simp only [not_or, gt_iff_lt, not_lt]
      exact ⟨v2, by decide, by decide, by decide, by decide⟩
    unfold MustCreatePolyline CreatePolyline
    rw [hc2, hA]

/-! ## Outcomes of `decodeHeader` and `Decode` -/

theorem decodeHeader_B {F : Type} (rest : List Byte) :
    decodeHeader (F := F) (byteOfChar 'B' :: rest)
      = (decodeValueAndAdvance rest).andThen fun r =>
          .ok ({ coordinates := [], precision2D := Fin.ofNat (toU64 (and64 r.1 15)),
                 precision3D := Fin.ofNat (toU64 (sar64 (sar64 r.1 4) 3)),
                 type3D := Fin.ofNat (toU64 (and64 (sar64 r.1 4) 7)) }, r.2) := by
  have hc : decodeChar (byteOfChar 'B') = .ok 1 := by decide
  have hv : ¬ toU64 1 ≠ FormatVersion := by decide
  rw [decodeHeader, hc]
  simp only [andThen_ok]
  rw [if_neg hv]

theorem decodeHeader_outcome {F : Type} (s : List Byte) :
    (∃ (H : Polyline F) (body pre : List Byte), decodeHeader s = .ok (H, body) ∧ s = pre ++ body) ∨
    (∃ e, decodeHeader (F := F) s = .error e) ∨ decodeHeader (F := F) s = .abort := by
  cases s with
  | nil => exact Or.inr (Or.inr rfl)
  | cons c rest =>
    rw [decodeHeader]
    cases hc : decodeChar c with
    | ok version =>
      simp only [andThen_ok]
      split
      · exact Or.inr (Or.inl ⟨_, rfl⟩)
      · rcases decodeValueAndAdvance_outcome rest with ⟨v, tail, pre, h1, h2, _⟩ | h | h
        · rw [h1]
          exact Or.inl ⟨_, tail, c :: pre, rfl, by rw [h2]; rfl⟩
        · rw [h]; exact Or.inr (Or.inl ⟨_, rfl⟩)
        · rw [h]; exact Or.inr (Or.inr rfl)
    | error e => exact Or.inr (Or.inl ⟨e, rfl⟩)
    | abort => exact Or.inr (Or.inr rfl)
    | outOfFuel => exact absurd hc (decodeChar_not_outOfFuel c)

theorem MustCreatePolyline3D_outcome {F : Type} (type3D : Type3D) (precision2D precision3D : Precision)
    (points : List (Point F)) :
    (MustCreatePolyline3D type3D precision2D precision3D points
        = .ok ⟨points, precision2D, precision3D, type3D⟩ ∧
      checkArgs type3D precision2D precision3D = none) ∨
    (MustCreatePolyline3D type3D precision2D precision3D points = .abort ∧
      checkArgs type3D precision2D precision3D ≠ none) := by
  unfold MustCreatePolyline3D CreatePolyline3D
  cases h : checkArgs type3D precision2D precision3D with
  | none => exact Or.inl ⟨rfl, rfl⟩
  | some e => exact Or.inr ⟨rfl, by simp⟩

theorem MustCreatePolyline_outcome {F : Type} (precision : Precision) (points : List (Point F)) :
    (MustCreatePolyline precision points = .ok ⟨points, precision, 0, Absent⟩ ∧
      checkArgs Absent precision 0 = none) ∨
    (MustCreatePolyline precision points = .abort ∧ checkArgs Absent precision 0 ≠ none) := by
  unfold MustCreatePolyline CreatePolyline
  cases h : checkArgs Absent precision 0 with
  | none => exact Or.inl ⟨rfl, rfl⟩
  | some e => exact Or.inr ⟨rfl, by simp⟩

theorem valid_of_checkArgs {F : Type} {type3D : Type3D} {precision2D precision3D : Precision}
    (h : checkArgs type3D precision2D precision3D = none) (points : List (Point F)) :
    Valid (⟨points, precision2D, precision3D, type3D⟩ : Polyline F) := by
  rw [checkArgs_eq_none_iff] at h
  simp only [not_or, gt_iff_lt, not_lt] at h
  obtain ⟨h1, h2, h3, h4, h5⟩ := h
  refine ⟨h1, h2, ?_⟩
  show type3D = 0 ∨ type3D = 1 ∨ type3D = 2 ∨ type3D = 3 ∨ type3D = 6 ∨ type3D = 7
  have hle : type3D.val ≤ 7 := h3
  have n4 : type3D.val ≠ 4 := fun e => h4 (Fin.ext e)
  have n5 : type3D.val ≠ 5 := fun e => h5 (Fin.ext e)
  have : type3D.val = 0 ∨ type3D.val = 1 ∨ type3D.val = 2 ∨ type3D.val = 3 ∨ type3D.val = 6 ∨
      type3D.val = 7 := by omega
  rcases this with e | e | e | e | e | e
  · exact Or.inl (Fin.ext e)
  · exact Or.inr (Or.inl (Fin.ext e))
  · exact Or.inr (Or.inr (Or.inl (Fin.ext e)))
  · exact Or.inr (Or.inr (Or.inr (Or.inl (Fin.ext e))))
  · exact Or.inr (Or.inr (Or.inr (Or.inr (Or.inl (Fin.ext e)))))
  · exact Or.inr (Or.inr (Or.inr (Or.inr (Or.inr (Fin.ext e)))))

theorem Decode_of_header {F : Type} (ops : FloatOps F) {s : List Byte} {H : Polyline F}
    {body : List Byte} (h : decodeHeader s = .ok (H, body)) :
    Decode ops s = (decodeLoop ops H body.length body ops.zero ops.zero ops.zero []).andThen
      fun result =>
        if H.type3D ≠ Absent then MustCreatePolyline3D H.type3D H.precision2D H.precision3D result
        else MustCreatePolyline H.precision2D result := by
  unfold Decode
  rw [h]
  rfl

theorem Decode_of_header_error {F : Type} (ops : FloatOps F) {s : List Byte} {e : Err}
    (h : decodeHeader (F := F) s = .error e) : Decode ops s = .error e := by
  unfold Decode
  rw [h]
  rfl

theorem Decode_of_header_abort {F : Type} (ops : FloatOps F) {s : List Byte}
    (h : decodeHeader (F := F) s = .abort) : Decode ops s = .abort := by
  unfold Decode
  rw [h]
  rfl

theorem Decode_after_header {F : Type} (ops : FloatOps F) {s : List Byte} {H : Polyline F}
    {body : List Byte} (h : decodeHeader s = .ok (H, body)) :
    (∃ (result : List (Point F)) (Q : Polyline F),
      decodeLoop ops H body.length body ops.zero ops.zero ops.zero [] = .ok result ∧
      result.length ≤ body.length ∧ Decode ops s = .ok Q ∧ Valid Q ∧ Q.coordinates = result ∧
      Q.precision2D = H.precision2D ∧ Q.type3D = H.type3D) ∨
    (Decode ops s = .error .invalidEncoding ∧ ¬ ∀ x ∈ body, IsSymbol x) ∨
    Decode ops s = .abort := by
  rw [Decode_of_header ops h]
  rcases (decodeLoop_total ops H body.length body ops.zero ops.zero ops.zero [] (le_refl _)).2 with
    ⟨r, hr, hlen⟩ | ⟨he, hn⟩ | ⟨ha, _⟩
  · rw [hr]
    simp only [andThen_ok]
    have hlen' : r.length ≤ body.length := by simpa using hlen
    by_cases h3 : H.type3D ≠ Absent
    · rw [if_pos h3]
      rcases MustCreatePolyline3D_outcome H.type3D H.precision2D H.precision3D r with
        ⟨e, hc⟩ | ⟨e, _⟩
      · rw [e]
        exact Or.inl ⟨r, _, rfl, hlen', rfl, valid_of_checkArgs hc r, rfl, rfl, rfl⟩
      · rw [e]; exact Or.inr (Or.inr rfl)
    · rw [if_neg h3]
      have hA : H.type3D = Absent := by simpa using h3
      rcases MustCreatePolyline_outcome H.precision2D r with ⟨e, hc⟩ | ⟨e, _⟩
      · rw [e]
        exact Or.inl ⟨r, _, rfl, hlen', rfl, valid_of_checkArgs hc r, rfl, rfl, hA.symm⟩
      · rw [e]; exact Or.inr (Or.inr rfl)
  · rw [he]
    exact Or.inr (Or.inl ⟨rfl, hn⟩)
  · rw [ha]
    exact Or.inr (Or.inr rfl)

/-! ## Termination and invariant of `Decode` -/

/-- C20: whenever `decodeValueAndAdvance` is called on a non-empty string and
returns no error, the returned tail is a proper suffix of its input; the point
loop of `Decode` therefore never exhausts a budget of `len(body)` iterations
(any larger budget gives the same outcome), it appends at most `len(line)`
points, `Decode` never runs out of budget and returns at most `len(body)`
points, and on a body of alphabet symbols the loop ends normally. -/
theorem Decode_terminates {F : Type} (ops : FloatOps F) :
    (∀ (l : List Byte) (v : Int) (tail : List Byte), l ≠ [] →
      decodeValueAndAdvance l = .ok (v, tail) →
      tail.length < l.length ∧ ∃ pre, pre ≠ [] ∧ l = pre ++ tail) ∧
    (∀ (header : Polyline F) (fuel : Nat) (line : List Byte) (lat lng z : F)
        (result : List (Point F)), line.length ≤ fuel →
      decodeLoop ops header fuel line lat lng z result ≠ .outOfFuel ∧
      decodeLoop ops header fuel line lat lng z result
        = decodeLoop ops header line.length line lat lng z result ∧
      (∀ r, decodeLoop ops header fuel line lat lng z result = .ok r →
        r.length ≤ result.length + line.length) ∧
      ((∀ x ∈ line, IsSymbol x) →
        ∃ r, decodeLoop ops header fuel line lat lng z result = .ok r)) ∧
    (∀ s, Decode ops s ≠ .outOfFuel) ∧
    (∀ (s : List Byte) (header : Polyline F) (body : List Byte) (Q : Polyline F),
      decodeHeader s = .ok (header, body) → Decode ops s = .ok Q →
      Q.coordinates.length ≤ body.length) := by
  refine ⟨?_, ?_, ?_, ?_⟩
  · intro l v tail hne h
    rcases decodeValueAndAdvance_outcome l with ⟨v', tail', pre, h1, h2, h3⟩ | h1 | h1
    · rw [h1] at h
      simp only [Outcome.ok.injEq, Prod.mk.injEq] at h
      obtain ⟨_, rfl⟩ := h
      have hp := h3 hne
      refine ⟨?_, pre, hp, h2⟩
      have := List.length_pos.mpr hp
      rw [h2, List.length_append]
      omega
    · rw [h1] at h; cases h
    · rw [h1] at h; cases h
  · intro header fuel line lat lng z result hlen
    obtain ⟨h1, h2⟩ := decodeLoop_total ops header fuel line lat lng z result hlen
    refine ⟨?_, h1, ?_, ?_⟩
    · rcases h2 with ⟨r, hr, _⟩ | ⟨he, _⟩ | ⟨ha, _⟩
      · rw [hr]; simp
      · rw [he]; simp
      · rw [ha]; simp
    · intro r hr
      rcases h2 with ⟨r', hr', hl⟩ | ⟨he, _⟩ | ⟨ha, _⟩
      · rw [hr'] at hr
        simp only [Outcome.ok.injEq] at hr
        rw [← hr]; exact hl
      · rw [he] at hr; cases hr
      · rw [ha] at hr; cases hr
    · intro hall
      rcases h2 with ⟨r, hr, _⟩ | ⟨_, hn⟩ | ⟨_, hn⟩
      · exact ⟨r, hr⟩
      · exact absurd hall hn
      · exact absurd hall hn
  · intro s
    rcases decodeHeader_outcome (F := F) s with ⟨H, body, pre, h, _⟩ | ⟨e, h⟩ | h
    · rcases Decode_after_header ops h with ⟨_, Q, _, _, hd, _⟩ | ⟨hd, _⟩ | hd <;>
        rw [hd] <;> simp
    · rw [Decode_of_header_error ops h]; simp
    · rw [Decode_of_header_abort ops h]; simp
  · intro s header body Q h hQ
    rcases Decode_after_header ops h with ⟨r, Q', _, hlen, hd, _, hc, _⟩ | ⟨hd, _⟩ | hd
    · rw [hd] at hQ
      simp only [Outcome.ok.injEq] at hQ
      rw [← hQ, hc]; exact hlen
    · rw [hd] at hQ; cases hQ
    · rw [hd] at hQ; cases hQ

/-- C17: every polyline returned without error by `CreatePolyline`, by
`CreatePolyline3D` or by `Decode` has `precision2D <= 15`, `precision3D <= 15`
and a kind among 0, 1, 2, 3, 6, 7. -/
theorem Polyline_invariant {F : Type} (ops : FloatOps F) :
    (∀ (precision : Precision) (points : List (Point F)) (P : Polyline F),
      CreatePolyline precision points = .ok P → Valid P) ∧
    (∀ (type3D : Type3D) (precision2D precision3D : Precision) (points : List (Point F))
        (P : Polyline F),
      CreatePolyline3D type3D precision2D precision3D points = .ok P → Valid P) ∧
    (∀ (s : List Byte) (Q : Polyline F), Decode ops s = .ok Q → Valid Q) := by
  refine ⟨?_, ?_, ?_⟩
  · intro precision points P h
    unfold CreatePolyline at h
    cases hc : checkArgs Absent precision 0 with
    | some e => rw [hc] at h; cases h
    | none =>
      rw [hc] at h
      simp only [Outcome.ok.injEq] at h
      rw [← h]
      exact valid_of_checkArgs hc points
  · intro type3D precision2D precision3D points P h
    obtain ⟨hP, hc, _⟩ := valid_of_create h
    rw [hP]
    exact valid_of_checkArgs hc points
  · intro s Q hQ
    rcases decodeHeader_outcome (F := F) s with ⟨H, body, pre, h, _⟩ | ⟨e, h⟩ | h
    · rcases Decode_after_header ops h with ⟨_, Q', _, _, hd, hv, _⟩ | ⟨hd, _⟩ | hd
      · rw [hd] at hQ
        simp only [Outcome.ok.injEq] at hQ
        rw [← hQ]; exact hv
      · rw [hd] at hQ; cases hQ
      · rw [hd] at hQ; cases hQ
    · rw [Decode_of_header_error ops h] at hQ; cases hQ
    · rw [Decode_of_header_abort ops h] at hQ; cases hQ

/-! ## Encoding cannot fail -/

/-- C16: for every polyline `P`, `Encode(P)` and `P.Encode()` return the same
string with a nil error; every index `encodeUint` makes into `encodingTable` is
at most 63, every such index is inside the table, and `encodeUint` returns
normally for every `uint64`. -/
theorem Encode_never_fails {F : Type} (ops : FloatOps F) (P : Polyline F) :
    (∃ s, Encode ops P = .ok s ∧ P.Encode ops = .ok s) ∧
    (∀ value : Nat, (value &&& 0x1F) ||| 0x20 ≤ 63 ∧ (¬ value > 0x1F → value ≤ 63)) ∧
    (∀ (pos : Nat) (builder : List Byte), pos ≤ 63 →
      ∃ c, encodingTable[pos]? = some c ∧ writeSymbol pos builder = .ok (builder ++ [c])) ∧
    (∀ (value : Nat) (builder : List Byte), value < 2 ^ 64 →
      ∃ s, encodeUint value builder = .ok (builder ++ s)) := by
  refine ⟨⟨_, Encode_eq ops P, Encode_eq ops P⟩, ?_, ?_, ?_⟩
  · intro value
    rw [low5_or_cont]
    omega
  · intro pos builder h
    have hp : pos < 64 := by omega
    exact ⟨symbolAt pos, (table_inverse ⟨pos, hp⟩).1, writeSymbol_ok hp builder⟩
  · intro value builder h
    exact ⟨uintSymbols value, encodeUint_eq h builder⟩

/-! ## Version check -/

/-- C13: for every string whose first symbol is an alphabet character other
than `B`, `decodeChar` gives a version other than 1 and `decodeHeader`,
`Decode` and `GetThirdDimension` all return the version error; when the first
symbol is `B`, none of the three returns the version error. -/
theorem version_check {F : Type} (ops : FloatOps F) (c : Byte) (rest : List Byte)
    (hc : IsSymbol c) (hB : c ≠ byteOfChar 'B') :
    (∃ version, decodeChar c = .ok version ∧ version ≠ 1 ∧
      decodeHeader (F := F) (c :: rest) = .error (.invalidVersion version) ∧
      Decode ops (c :: rest) = .error (.invalidVersion version) ∧
      GetThirdDimension (c :: rest) = .error (.invalidVersion version)) ∧
    decodeChar (byteOfChar 'B') = .ok 1 ∧
    (∀ version, decodeHeader (F := F) (byteOfChar 'B' :: rest) ≠ .error (.invalidVersion version) ∧
      Decode ops (byteOfChar 'B' :: rest) ≠ .error (.invalidVersion version) ∧
      GetThirdDimension (byteOfChar 'B' :: rest) ≠ .error (.invalidVersion version)) := by
  obtain ⟨h1, _, _, h4⟩ := decodeChar_symbol c hc
  have hv := h4 hB
  have hhdr : ∀ G : Type, decodeHeader (F := G) (c :: rest)
      = .error (.invalidVersion (decodingTable.getD (c.val - 45) 0)) := by
    intro G
    rw [decodeHeader, h1]
    simp only [andThen_ok]
    rw [if_pos hv]
  have hBhdr : ∀ (G : Type) (version : Int),
      decodeHeader (F := G) (byteOfChar 'B' :: rest) ≠ .error (.invalidVersion version) := by
    intro G version
    rw [decodeHeader_B]
    rcases decodeValueAndAdvance_outcome rest with ⟨v, tail, pre, e, _, _⟩ | e | e <;>
      rw [e] <;> simp [Outcome.andThen]
  refine ⟨⟨_, h1, ?_, hhdr F, Decode_of_header_error ops (hhdr F), ?_⟩, by decide, ?_⟩
  · intro h
    rw [h] at hv
    exact hv (by decide)
  · unfold GetThirdDimension
    rw [hhdr Unit]
    rfl
  · intro version
    refine ⟨hBhdr F version, ?_, ?_⟩
    · rcases decodeHeader_outcome (F := F) (byteOfChar 'B' :: rest) with
        ⟨H, body, pre, h, _⟩ | ⟨e, h⟩ | h
      · rcases Decode_after_header ops h with ⟨_, Q, _, _, hd, _⟩ | ⟨hd, _⟩ | hd <;>
          rw [hd] <;> simp
      · rw [Decode_of_header_error ops h]
        intro hcon
        simp only [Outcome.error.injEq] at hcon
        rw [hcon] at h
        exact hBhdr F version h
      · rw [Decode_of_header_abort ops h]; simp
    · unfold GetThirdDimension
      rcases decodeHeader_outcome (F := Unit) (byteOfChar 'B' :: rest) with
        ⟨H, body, pre, h, _⟩ | ⟨e, h⟩ | h
      · rw [h]; simp [Outcome.andThen]
      · rw [h]
        intro hcon
        simp only [andThen_error, Outcome.error.injEq] at hcon
        rw [hcon] at h
        exact hBhdr Unit version h
      · rw [h]; simp [Outcome.andThen]

theorem version_check_witness :
    IsSymbol (byteOfChar 'C') ∧ byteOfChar 'C' ≠ byteOfChar 'B' ∧
    (∃ version, decodeChar (byteOfChar 'C') = .ok version ∧ version ≠ 1 ∧
      decodeHeader (F := Int) (byteOfChar 'C' :: bytes "Foz5xJ")
        = .error (.invalidVersion version) ∧
      Decode scaledOps (byteOfChar 'C' :: bytes "Foz5xJ") = .error (.invalidVersion version) ∧
      GetThirdDimension (byteOfChar 'C' :: bytes "Foz5xJ") = .error (.invalidVersion version)) :=
  ⟨by decide, by decide,
   (version_check scaledOps (byteOfChar 'C') (bytes "Foz5xJ") (by decide) (by decide)).1⟩

/-! ## Input that ends early -/

/-- C15, refuted as stated: on the one-symbol string `1` (6-bit value 53, with
the continuation bit set) `decodeValueAndAdvance` returns the partial value 21
with no error, and `Decode` of `B1` returns a polyline. -/
theorem unterminated_varint_accepted :
    IsSymbol (byteOfChar '1') ∧ Continues (byteOfChar '1') ∧
    decodeValueAndAdvance (bytes "1") = .ok (21, []) ∧
    Decode scaledOps (bytes "B1") = .ok ⟨[], 5, 0, Level⟩ ∧
    ¬ (∃ e, decodeValueAndAdvance (bytes "1") = .error e) ∧
    ¬ (∃ e, Decode scaledOps (bytes "B1") = .error e) := by
  refine ⟨by decide, ⟨53, by decide, by decide⟩, by decide, by decide, ?_, ?_⟩
  · rintro ⟨e, h⟩
    have h' : decodeValueAndAdvance (bytes "1") = .ok (21, []) := by decide
    rw [h'] at h
    cases h
  · rintro ⟨e, h⟩
    have h' : Decode scaledOps (bytes "B1") = .ok ⟨[], 5, 0, Level⟩ := by decide
    rw [h'] at h
    cases h

/-- C14, refuted as stated: `BFoz5xJ` has a valid header (precision 5, kind
`Absent`) and a body holding one latitude delta and no longitude delta, and
`BlBoz5xJ67i1B` (kind `Altitude`) a body holding latitude and longitude but no
third-dimension delta; `Decode` returns a polyline for both and no error. -/
theorem truncated_point_accepted :
    Decode scaledOps (bytes "BFoz5xJ") = .ok ⟨[⟨5010228, 0, 0⟩], 5, 0, Absent⟩ ∧
    Decode scaledOps (bytes "BlBoz5xJ67i1B") = .ok ⟨[⟨5010228, 869821, 0⟩], 5, 0, Altitude⟩ ∧
    Decode scaledOps (bytes "BlBoz5xJ") = .ok ⟨[⟨5010228, 0, 0⟩], 5, 0, Altitude⟩ ∧
    ¬ (∃ e, Decode scaledOps (bytes "BFoz5xJ") = .error e) := by
  refine ⟨by decide, by decide, by decide, ?_⟩
  rintro ⟨e, h⟩
  have h' : Decode scaledOps (bytes "BFoz5xJ") = .ok ⟨[⟨5010228, 0, 0⟩], 5, 0, Absent⟩ := by
    decide
  rw [h'] at h
  cases h

/-- C14 as amended: for every valid header and every sequence of deltas in
`[-2^62, 2^62)`, whatever its length, `Decode` of the header followed by the
varints of the deltas returns no error: the deltas are grouped 2 per point
(3 with a third dimension) and the deltas missing from the last point count
as 0, so a body that ends after a latitude delta gives a last point built from
that delta and 0. -/
theorem Decode_truncated_point {F : Type} (ops : FloatOps F) (type3D : Type3D)
    (precision2D precision3D : Precision) (points : List (Point F)) (P : Polyline F)
    (hP : CreatePolyline3D type3D precision2D precision3D points = .ok P)
    (vs : List Int) (hfit : ∀ v ∈ vs, Fits v) :
    Decode ops (bytes "B" ++ uintSymbols (headerContent P) ++ vs.flatMap scaledSymbols)
      = .ok ⟨accumulate ops (ops.pow10 precision2D.val) (ops.pow10 precision3D.val) (is3D P)
          (groupPoints (is3D P) vs) ops.zero ops.zero ops.zero,
        precision2D, if type3D ≠ Absent then precision3D else 0, type3D⟩ ∧
    (∀ (pre : List (Int × Int)) (a : Int),
      group2 (pre.flatMap (fun d => [d.1, d.2]) ++ [a])
        = pre.map (fun d => (d.1, d.2, 0)) ++ [(a, 0, 0)]) ∧
    (∀ (pre : List (Int × Int × Int)) (a b : Int),
      group3 (wireOrder true pre ++ [a]) = pre ++ [(a, 0, 0)] ∧
      group3 (wireOrder true pre ++ [a, b]) = pre ++ [(a, b, 0)]) := by
  refine ⟨?_, ?_, ?_⟩
  · have h := Decode_of_flat ops hP vs
    rw [map_readBack_of_fits vs hfit] at h
    exact h
  · intro pre a
    induction pre with
    | nil => rfl
    | cons d ds ih =>
      rw [List.flatMap_cons]
      show group2 (d.1 :: d.2 :: (ds.flatMap (fun d => [d.1, d.2]) ++ [a])) = _
      rw [group2, ih]
      rfl
  · intro pre a b
    induction pre with
    | nil => exact ⟨rfl, rfl⟩
    | cons d ds ih =>
      have hw : wireOrder true (d :: ds) = d.1 :: d.2.1 :: d.2.2 :: wireOrder true ds := by
        rw [wireOrder_cons]
        rfl
      rw [hw]
      refine ⟨?_, ?_⟩
      · show group3 (d.1 :: d.2.1 :: d.2.2 :: (wireOrder true ds ++ [a])) = _
        rw [group3, ih.1]
        rfl
      · show group3 (d.1 :: d.2.1 :: d.2.2 :: (wireOrder true ds ++ [a, b])) = _
        rw [group3, ih.2]
        rfl

theorem Decode_truncated_point_witness :
    (∀ v ∈ [(5010228 : Int)], Fits v) ∧
    Decode scaledOps (bytes "B" ++ uintSymbols (headerContent
        (⟨[], 5, 0, Absent⟩ : Polyline Int)) ++ [(5010228 : Int)].flatMap scaledSymbols)
      = .ok ⟨accumulate scaledOps (scaledOps.pow10 5) (scaledOps.pow10 0) false
          (groupPoints false [5010228]) 0 0 0, 5, if Absent ≠ Absent then 0 else 0, Absent⟩ :=
  ⟨by decide,
   (Decode_truncated_point scaledOps Absent 5 0 [] ⟨[], 5, 0, Absent⟩ rfl [5010228]
      (by decide)).1⟩

/-! ## Header values in `Decode` -/

/-- C11 (what the code does): `decodeHeader` and `GetThirdDimension` accept a
reserved kind and a `precision3D` above 15 as they are, but `Decode` does not:
on `BlC` (kind 4) and on `BlhC` (kind `Altitude`, `precision3D` 16) it panics,
and on `BlgC` (kind `Absent`, `precision3D` 16) it returns a polyline with
`precision3D` 0.  No string whose header carries a reserved kind is decoded to
a polyline, and when its body holds only alphabet symbols `Decode` panics. -/
theorem Decode_reserved_header {F : Type} (ops : FloatOps F) :
    decodeHeader (F := F) (bytes "BlC") = .ok (⟨[], 5, 0, Reserved1⟩, []) ∧
    GetThirdDimension (bytes "BlC") = .ok Reserved1 ∧
    Decode ops (bytes "BlC") = .abort ∧
    decodeHeader (F := F) (bytes "BlhC") = .ok (⟨[], 5, 16, Altitude⟩, []) ∧
    Decode ops (bytes "BlhC") = .abort ∧
    decodeHeader (F := F) (bytes "BlgC") = .ok (⟨[], 5, 16, Absent⟩, []) ∧
    Decode ops (bytes "BlgC") = .ok ⟨[], 5, 0, Absent⟩ ∧
    (∀ (s : List Byte) (H : Polyline F) (body : List Byte),
      decodeHeader s = .ok (H, body) → H.type3D = Reserved1 ∨ H.type3D = Reserved2 →
      (∀ Q, Decode ops s ≠ .ok Q) ∧ ((∀ x ∈ body, IsSymbol x) → Decode ops s = .abort)) := by
  refine ⟨rfl, rfl, rfl, rfl, rfl, rfl, rfl, ?_⟩
  intro s H body h hk
  have hbad : ∀ Q : Polyline F, Valid Q → Q.type3D = H.type3D → False := by
    intro Q hv hq
    obtain ⟨_, _, hkind⟩ := hv
    rw [hq] at hkind
    rcases hk with hk | hk <;> rw [hk] at hkind <;> revert hkind <;> decide
  rcases Decode_after_header ops h with ⟨_, Q, _, _, hd, hv, _, _, hq⟩ | ⟨hd, hn⟩ | hd
  · exact absurd hq (fun hq => hbad Q hv hq)
  · refine ⟨fun Q => by rw [hd]; simp, fun hall => absurd hall hn⟩
  · exact ⟨fun Q => by rw [hd]; simp, fun _ => hd⟩

/-- C19: for every polyline `P` returned by `CreatePolyline3D`, `Encode(P)`
returns a string and `Decode` of it returns a polyline with `P`'s
`precision2D` and kind; its `precision3D` is `P`'s when the kind is not
`Absent` and 0 when it is `Absent`, while `decodeHeader` on the same string
reports `P`'s `precision3D`.  `CreatePolyline3D(Absent, 5, 7, points)` is such
a polyline. -/
theorem Decode_Encode_metadata {F : Type} (ops : FloatOps F) (type3D : Type3D)
    (precision2D precision3D : Precision) (points : List (Point F)) (P : Polyline F)
    (hP : CreatePolyline3D type3D precision2D precision3D points = .ok P) :
    (∃ (s : List Byte) (Q H : Polyline F) (body : List Byte),
      Encode ops P = .ok s ∧ Decode ops s = .ok Q ∧
      Q.precision2D = P.precision2D ∧ Q.type3D = P.type3D ∧
      (P.type3D ≠ Absent → Q.precision3D = P.precision3D) ∧
      (P.type3D = Absent → Q.precision3D = 0) ∧
      decodeHeader s = .ok (H, body) ∧ H.precision3D = P.precision3D ∧
      H.precision2D = P.precision2D ∧ H.type3D = P.type3D) ∧
    CreatePolyline3D Absent 5 7 points = .ok ⟨points, 5, 7, Absent⟩ := by
  obtain ⟨hPeq, _, v2, _, vk⟩ := valid_of_create hP
  have hk : P.type3D = type3D := by rw [hPeq]
  have hp2 : P.precision2D = precision2D := by rw [hPeq]
  have hp3 : P.precision3D = precision3D := by rw [hPeq]
  have hdec := Decode_of_flat ops hP (wireOrder (is3D P) (deltasOf ops P))
  have hhdr := decodeHeader_eq (F := F) P (by rw [hk]; exact vk) (by rw [hp2]; exact v2)
    ((wireOrder (is3D P) (deltasOf ops P)).flatMap scaledSymbols)
  refine ⟨⟨_, _, _, _, Encode_eq ops P, hdec, hp2.symm, hk.symm, ?_, ?_, hhdr, rfl, rfl, rfl⟩,
    rfl⟩
  · intro h
    rw [hk] at h
    show (if type3D ≠ Absent then precision3D else 0) = P.precision3D
    rw [if_pos h, hp3]
  · intro h
    rw [hk] at h
    show (if type3D ≠ Absent then precision3D else 0) = 0
    rw [if_neg (by simpa using h)]

theorem Decode_Encode_metadata_witness :
    ∃ (s : List Byte) (Q H : Polyline Int) (body : List Byte),
      Encode scaledOps ⟨[⟨5010228, 869821, 10⟩], 5, 7, Absent⟩ = .ok s ∧
      Decode scaledOps s = .ok Q ∧
      Q.precision2D = 5 ∧ Q.type3D = Absent ∧
      (Absent ≠ Absent → Q.precision3D = 7) ∧
      (Absent = Absent → Q.precision3D = 0) ∧
      decodeHeader s = .ok (H, body) ∧ H.precision3D = 7 ∧
      H.precision2D = 5 ∧ H.type3D = Absent :=
  (Decode_Encode_metadata scaledOps Absent 5 7 [⟨5010228, 869821, 10⟩]
    ⟨[⟨5010228, 869821, 10⟩], 5, 7, Absent⟩ rfl).1

/-! ## The value assembled by `decodeValueAndAdvance` -/

set_option maxRecDepth 100000 in
theorem decodeChar_sixBits : ∀ c : Byte, c ∈ encodingTable →
    decodeChar c = .ok (sixBits c : Int) ∧ sixBits c < 64 := by
  decide

theorem not_continues_of_clear {c : Byte} {value : Int} (h : decodeChar c = .ok value)
    (hclr : and64 value 0x20 = 0) : ¬ Continues c := by
  rintro ⟨v, hv, hbit⟩
  rw [h] at hv
  simp only [Outcome.ok.injEq] at hv
  rw [← hv] at hbit
  exact hbit hclr

theorem decodeValueLoop_assemble : ∀ (l : List Byte) (r : Int) (s : Fin 256),
    (∀ c ∈ l, IsSymbol c) →
    ∃ pre tail, l = pre ++ tail ∧
      decodeValueLoop l r s = .ok (assemble (pre.map sixBits) r s, tail) ∧
      (l ≠ [] → pre ≠ []) ∧
      (∀ c ∈ pre.dropLast, Continues c) ∧
      (tail ≠ [] → ∃ c, pre.getLast? = some c ∧ ¬ Continues c) ∧
      ((∀ c ∈ l, Continues c) → pre = l ∧ tail = []) := by
  intro l
  induction l with
  | nil =>
    intro r s _
    exact ⟨[], [], rfl, rfl, fun h => absurd rfl h, by simp, fun h => absurd rfl h,
      fun _ => ⟨rfl, rfl⟩⟩
  | cons c cs ih =>
    intro r s hl
    have hc := (decodeChar_sixBits c (hl c (List.mem_cons_self _ _))).1
    rw [decodeValueLoop, hc]
    simp only [andThen_ok]
    split
    · rename_i hclr
      have hn := not_continues_of_clear hc hclr
      refine ⟨[c], cs, rfl, rfl, fun _ => by simp, by simp, fun _ => ⟨c, rfl, hn⟩, ?_⟩
      intro hall
      exact absurd (hall c (List.mem_cons_self _ _)) hn
    · rename_i hset
      have hcont : Continues c := ⟨_, hc, hset⟩
      obtain ⟨pre, tail, h1, h2, h3, h4, h5, h6⟩ :=
        ih (or64 r (shl64 (and64 (sixBits c : Int) 0x1F) s.val)) (s + 5)
          (fun x hx => hl x (List.mem_cons_of_mem _ hx))
      refine ⟨c :: pre, tail, by rw [h1]; rfl, ?_, fun _ => by simp, ?_, ?_, ?_⟩
      · rw [h2]; rfl
      · intro x hx
        by_cases hp : pre = []
        · subst hp
          simp at hx
        · rw [List.dropLast_cons_of_ne_nil hp, List.mem_cons] at hx
          rcases hx with rfl | hx
          · exact hcont
          · exact h4 x hx
      · intro ht
        have hp : pre ≠ [] := by
          apply h3
          intro hcs
          rw [hcs] at h1
          exact ht (List.append_eq_nil.mp h1.symm).2
        obtain ⟨x, hx, hnx⟩ := h5 ht
        refine ⟨x, ?_, hnx⟩
        obtain ⟨y, ys, rfl⟩ := List.exists_cons_of_ne_nil hp
        rw [List.getLast?_cons_cons]
        exact hx
      · intro hall
        obtain ⟨e1, e2⟩ := h6 (fun x hx => hall x (List.mem_cons_of_mem _ hx))
        exact ⟨by rw [e1], e2⟩

theorem littleEndian_lt : ∀ ds : List Nat, littleEndian ds < 32 ^ ds.length := by
  intro ds
  induction ds with
  | nil => simp [littleEndian]
  | cons d ds ih =>
    rw [littleEndian, List.length_cons, Nat.pow_succ]
    have := Nat.mod_lt d (show 0 < 32 by decide)
    omega

theorem assemble_eq : ∀ (ds : List Nat) (r shift : Nat) (hs : shift < 64),
    (∀ d ∈ ds, d < 64) → r < 2 ^ shift → shift + 5 * ds.length ≤ 60 →
    assemble ds (toI64 r) ⟨shift, by omega⟩ = toI64 (r + 2 ^ shift * littleEndian ds) := by
  intro ds
  induction ds with
  | nil => intro r shift _ _ _ _; simp [assemble, littleEndian]
  | cons d ds ih =>
    intro r shift hs hd hr hlen
    rw [List.length_cons] at hlen
    have hd64 : d < 64 := hd d (List.mem_cons_self _ _)
    have hm := (sixbit_masks ⟨d, hd64⟩).1
    simp only at hm
    have hpow : (2 : Nat) ^ shift ≤ 2 ^ 55 := Nat.pow_le_pow_right (by decide) (by omega)
    have hmod : d % 32 < 32 := Nat.mod_lt _ (by decide)
    have hchunk : (d % 32) * 2 ^ shift ≤ 31 * 2 ^ shift := Nat.mul_le_mul_right _ (by omega)
    have h2 : (2 : Nat) ^ (shift + 5) = 2 ^ shift * 32 := by rw [Nat.pow_add]
    rw [assemble, hm, or64_shl hr (by omega)]
    have e2 : (⟨shift, by omega⟩ + 5 : Fin 256) = ⟨shift + 5, by omega⟩ := by
      apply Fin.ext
      rw [Fin.val_add]
      show (shift + 5) % 256 = shift + 5
      omega
    rw [e2, ih (r + d % 32 * 2 ^ shift) (shift + 5) (by omega)
      (fun x hx => hd x (List.mem_cons_of_mem _ hx)) (by omega) (by omega)]
    congr 1
    rw [littleEndian, h2]
    ring

theorem assemble_littleEndian (ds : List Nat) (hd : ∀ d ∈ ds, d < 64) (hlen : ds.length ≤ 12) :
    assemble ds 0 0 = (littleEndian ds : Int) := by
  have h := assemble_eq ds 0 0 (by decide) hd (by decide) (by omega)
  have h0 : toI64 0 = 0 := by decide
  rw [h0] at h
  have hlt := littleEndian_lt ds
  have hp : 32 ^ ds.length ≤ 32 ^ 12 := Nat.pow_le_pow_right (by decide) hlen
  have : (⟨0, by omega⟩ : Fin 256) = 0 := rfl
  rw [this] at h
  rw [h]
  simp only [pow_zero, one_mul, zero_add]
  exact toI64_of_lt (by omega)

theorem decodeHeader_precision2D_le (v : Int) :
    (Fin.ofNat (toU64 (and64 v 15)) : Precision) ≤ 15 := by
  have h15 : toU64 15 = 15 := by decide
  have hle : toU64 v &&& 15 ≤ 15 := Nat.and_le_right
  have e : toU64 (and64 v 15) = toU64 v &&& 15 := by
    unfold and64
    rw [h15, toU64_toI64]
    exact Nat.mod_eq_of_lt (by omega)
  rw [e]
  show (toU64 v &&& 15) % 256 ≤ 15
  omega

/-- C15 as amended: on every string of alphabet symbols `decodeValueAndAdvance`
returns no error.  It reads the symbols up to and including the first one whose
continuation bit is clear, or all of them when there is none, and returns the
value assembled from the symbols read (`result |= low5 << shift`, least
significant chunk first; for up to 12 symbols the number `sum chunk_i * 32^i`)
together with the unread rest, which is empty when every symbol has the
continuation bit set.  `Decode` of `B` followed by alphabet symbols returns a
polyline whenever the decoded kind is `Absent` or the decoded kind and
precisions pass the construction check, and panics otherwise; it never returns
an error. -/
theorem decodeValueAndAdvance_symbols {F : Type} (ops : FloatOps F) (l : List Byte)
    (hl : ∀ c ∈ l, IsSymbol c) :
    (∃ pre tail, l = pre ++ tail ∧
      decodeValueAndAdvance l = .ok (assemble (pre.map sixBits) 0 0, tail) ∧
      (l ≠ [] → pre ≠ []) ∧
      (∀ c ∈ pre.dropLast, Continues c) ∧
      (tail ≠ [] → ∃ c, pre.getLast? = some c ∧ ¬ Continues c) ∧
      ((∀ c ∈ l, Continues c) → pre = l ∧ tail = []) ∧
      (pre.length ≤ 12 → assemble (pre.map sixBits) 0 0 = (littleEndian (pre.map sixBits) : Int))) ∧
    (∃ (H : Polyline F) (body : List Byte),
      decodeHeader (byteOfChar 'B' :: l) = .ok (H, body) ∧
      (H.type3D = Absent ∨ checkArgs H.type3D H.precision2D H.precision3D = none →
        ∃ Q, Decode ops (byteOfChar 'B' :: l) = .ok Q ∧ Q.precision2D = H.precision2D ∧
          Q.type3D = H.type3D ∧ Q.coordinates.length ≤ body.length) ∧
      (¬ (H.type3D = Absent ∨ checkArgs H.type3D H.precision2D H.precision3D = none) →
        Decode ops (byteOfChar 'B' :: l) = .abort)) := by
  obtain ⟨pre, tail, h1, h2, h3, h4, h5, h6⟩ := decodeValueLoop_assemble l 0 0 hl
  have hsub : ∀ x ∈ pre, IsSymbol x := by
    intro x hx
    apply hl
    rw [h1]
    exact List.mem_append_left _ hx
  have hsubt : ∀ x ∈ tail, IsSymbol x := by
    intro x hx
    apply hl
    rw [h1]
    exact List.mem_append_right _ hx
  have h2' : decodeValueAndAdvance l = .ok (assemble (pre.map sixBits) 0 0, tail) := h2
  refine ⟨⟨pre, tail, h1, h2', h3, h4, h5, h6, ?_⟩, ?_⟩
  · intro hlen
    apply assemble_littleEndian
    · intro d hd
      rw [List.mem_map] at hd
      obtain ⟨c, hc, rfl⟩ := hd
      exact (decodeChar_sixBits c (hsub c hc)).2
    · rw [List.length_map]; exact hlen
  · have hh := decodeHeader_B (F := F) l
    rw [h2'] at hh
    simp only [andThen_ok] at hh
    have hloop : ∀ H : Polyline F, ∃ r,
        decodeLoop ops H tail.length tail ops.zero ops.zero ops.zero [] = .ok r ∧
          r.length ≤ ([] : List (Point F)).length + tail.length := fun H =>
      (decodeLoop_total ops H tail.length tail ops.zero ops.zero ops.zero []
        (le_refl _)).2.resolve_right (by
          rintro (⟨_, hn⟩ | ⟨_, hn⟩) <;> exact hn hsubt)
    refine ⟨_, tail, hh, ?_, ?_⟩
    swap
    · intro hinv
      obtain ⟨r, hr, _⟩ := hloop _
      rw [Decode_of_header ops hh, hr]
      simp only [andThen_ok]
      rw [if_pos (fun h => hinv (Or.inl h))]
      rcases MustCreatePolyline3D_outcome _ _ _ r with ⟨_, hc⟩ | ⟨e, _⟩
      · exact absurd (Or.inr hc) hinv
      · exact e
    intro hvalid
    rcases Decode_after_header ops hh with ⟨r, Q, _, hlen, hd, _, hc, hp, hk⟩ | ⟨_, hn⟩ | hd
    · exact ⟨Q, hd, hp, hk, by rw [hc]; exact hlen⟩
    · exact absurd hsubt hn
    · exfalso
      rw [Decode_of_header ops hh] at hd
      obtain ⟨r, hr, _⟩ := (decodeLoop_total ops _ tail.length tail ops.zero ops.zero ops.zero []
        (le_refl _)).2.resolve_right (by
          rintro (⟨_, hn⟩ | ⟨_, hn⟩) <;> exact hn hsubt)
      rw [hr] at hd
      simp only [andThen_ok] at hd
      split at hd
      · rename_i h3d
        rcases hvalid with hA | hchk
        · exact h3d hA
        · rcases MustCreatePolyline3D_outcome _ _ _ r with ⟨e, _⟩ | ⟨_, hne⟩
          · rw [e] at hd; cases hd
          · exact hne hchk
      · rcases MustCreatePolyline_outcome _ r with ⟨e, _⟩ | ⟨_, hne⟩
        · rw [e] at hd; cases hd
        · apply hne
          rw [checkArgs_eq_none_iff]
          simp only [not_or, gt_iff_lt, not_lt]
          exact ⟨decodeHeader_precision2D_le _, by decide, by decide, by decide,
            by decide⟩

set_option maxRecDepth 100000 in
theorem decodeValueAndAdvance_symbols_witness :
    (∀ c ∈ bytes "11", IsSymbol c) ∧
    ((∃ pre tail, bytes "11" = pre ++ tail ∧
      decodeValueAndAdvance (bytes "11") = .ok (assemble (pre.map sixBits) 0 0, tail) ∧
      (bytes "11" ≠ [] → pre ≠ []) ∧
      (∀ c ∈ pre.dropLast, Continues c) ∧
      (tail ≠ [] → ∃ c, pre.getLast? = some c ∧ ¬ Continues c) ∧
      ((∀ c ∈ bytes "11", Continues c) → pre = bytes "11" ∧ tail = []) ∧
      (pre.length ≤ 12 →
        assemble (pre.map sixBits) 0 0 = (littleEndian (pre.map sixBits) : Int))) ∧
    (∃ (H : Polyline Frac) (body : List Byte),
      decodeHeader (byteOfChar 'B' :: bytes "11") = .ok (H, body) ∧
      (H.type3D = Absent ∨ checkArgs H.type3D H.precision2D H.precision3D = none →
        ∃ Q, Decode fracOps (byteOfChar 'B' :: bytes "11") = .ok Q ∧
          Q.precision2D = H.precision2D ∧ Q.type3D = H.type3D ∧
          Q.coordinates.length ≤ body.length) ∧
      (¬ (H.type3D = Absent ∨ checkArgs H.type3D H.precision2D H.precision3D = none) →
        Decode fracOps (byteOfChar 'B' :: bytes "11") = .abort))) ∧
    decodeValueAndAdvance (bytes "11") = .ok (693, []) ∧
    assemble ((bytes "11").map sixBits) 0 0 = 693 ∧
    littleEndian ((bytes "11").map sixBits) = 693 ∧
    Decode fracOps (byteOfChar 'B' :: bytes "11") = .ok ⟨[], 5, 5, Elevation⟩ :=
  ⟨by decide, decodeValueAndAdvance_symbols fracOps (bytes "11") (by decide), by decide,
   by decide, by decide, by decide⟩

/-! ## Round trip of the third dimension -/

set_option maxRecDepth 100000 in
/-- C2 (what the code does): the polyline
`CreatePolyline3D(Altitude, 5, 15, [{0, 0, 5000}])` is valid and its third
dimension has the scaled integer `5 * 10^18`, but `Decode(Encode(P))` builds its
third dimension from the integer `-4223372036854775808`, whatever the floating
point primitives are; in exact arithmetic the decoded value is
`-4223.372036854775808`, more than 9223 away from 5000 and so outside the
bound `0.5 / 10^15`. -/
theorem third_dimension_round_trip_fails :
    CreatePolyline3D Altitude 5 15 [(⟨⟨0, 1⟩, ⟨0, 1⟩, ⟨5000, 1⟩⟩ : Point Frac)]
      = .ok ⟨[⟨⟨0, 1⟩, ⟨0, 1⟩, ⟨5000, 1⟩⟩], 5, 15, Altitude⟩ ∧
    scaledPoints fracOps ⟨[⟨⟨0, 1⟩, ⟨0, 1⟩, ⟨5000, 1⟩⟩], 5, 15, Altitude⟩
      = [(0, 0, 5000000000000000000)] ∧
    (Encode fracOps ⟨[⟨⟨0, 1⟩, ⟨0, 1⟩, ⟨5000, 1⟩⟩], 5, 15, Altitude⟩).andThen (Decode fracOps)
      = .ok ⟨[⟨⟨0, 100000⟩, ⟨0, 100000⟩, ⟨-4223372036854775808, 1000000000000000⟩⟩],
          5, 15, Altitude⟩ ∧
    ¬ Frac.le (Frac.absDiff ⟨5000, 1⟩ ⟨-4223372036854775808, 1000000000000000⟩)
        ⟨5, 10000000000000000⟩ ∧
    Frac.le ⟨9223, 1⟩ (Frac.absDiff ⟨5000, 1⟩ ⟨-4223372036854775808, 1000000000000000⟩) ∧
    (∀ (F : Type) (ops : FloatOps F) (points : List (Point F)) (P : Polyline F),
      CreatePolyline3D Altitude 5 15 points = .ok P →
      scaledPoints ops P = [(0, 0, 5000000000000000000)] →
      ∃ s, Encode ops P = .ok s ∧
        Decode ops s = .ok ⟨[⟨ops.add ops.zero (ops.div (ops.ofInt64 0) (ops.pow10 5)),
            ops.add ops.zero (ops.div (ops.ofInt64 0) (ops.pow10 5)),
            ops.add ops.zero (ops.div (ops.ofInt64 (-4223372036854775808)) (ops.pow10 15))⟩],
          5, 15, Altitude⟩) := by
  refine ⟨rfl, by decide, by decide, by decide, by decide, ?_⟩
  intro F ops points P hP hS
  obtain ⟨hPeq, _⟩ := valid_of_create hP
  have hb : is3D P = true := by rw [hPeq]; rfl
  have hd : deltasOf ops P = [(0, 0, 5000000000000000000)] := by
    rw [deltasOf, hS]
    decide
  have hg : groupPoints true ((wireOrder true [((0 : Int), (0 : Int),
      (5000000000000000000 : Int))]).map readBack) = [(0, 0, -4223372036854775808)] := by
    decide
  have hdec := Decode_of_flat ops hP (wireOrder (is3D P) (deltasOf ops P))
  rw [hb, hd, hg] at hdec
  refine ⟨_, Encode_eq ops P, ?_⟩
  have he : deltasOf ops P = pointDeltas (0, 0, 0) (scaledPoints ops P) := rfl
  rw [← he, hb, hd, hdec]
  rfl

end FlexPolyline
